import Mathlib

/-!
Verification development for the fogTime calendar synchronizer
(`src/main.py`).  The Python program is shallowly embedded: raw Google
calendar records become `RawEvent`, the dataclasses `CalendarTimeStamp`
and `CalendarEvent` are translated field by field, Python `dict`s become
association lists with in-place overwrite (`dinsert`), and the network
writes `insert` / `patch` / `delete` become an explicit `Action` type
applied to a store modelled as a list of raw records.  The collaborator
fetch (`get_events`) is abstracted as the list of raw records it
returns; its 90-day window and start-time ordering are collaborator
guarantees outside the program text.
-/

namespace FogTime

/-! ### The tag scheme: `re.search("fogTimeID: (.*)$", description)`

Python semantics being modelled: without `re.MULTILINE`, `$` matches at
the end of the string or just before a trailing final newline, and `.`
does not match `'\n'`.  Hence the pattern matches at the leftmost
occurrence of `"fogTimeID: "` that is followed by no newline other than
possibly one final trailing newline, and the group is everything from
there to that point.  `scanTag` scans positions left to right exactly
like the regex engine; `stripNl` accounts for `$` accepting a single
trailing newline. -/

def tagMarker : List Char := "fogTimeID: ".data

/-- Does the character list contain a newline? -/
def hasNl : List Char → Bool
  | [] => false
  | c :: cs => (c = '\n') || hasNl cs

/-- Leftmost-match scan for `fogTimeID: (.*)$` (after trailing-newline
stripping): at each position, succeed iff `tagMarker` is a prefix there
and the remainder of the text contains no newline. -/
def scanTag : List Char → Option (List Char)
  | [] => none
  | c :: cs =>
      if tagMarker.isPrefixOf (c :: cs) && !hasNl ((c :: cs).drop tagMarker.length)
      then some ((c :: cs).drop tagMarker.length)
      else scanTag cs

/-- Drop a single trailing newline, mirroring how `$` can match just
before a final `'\n'`. -/
def stripNl (cs : List Char) : List Char :=
  if cs.getLast? = some '\n' then cs.dropLast else cs

/-- `decodeTag s` is `match.group(1)` of
`re.search("fogTimeID: (.*)$", s)`, or `none` when the regex does not
match. -/
def decodeTag (s : String) : Option String :=
  (scanTag (stripNl s.data)).map (fun cs => String.mk cs)

/-- Python substring containment `pat in s`, on character lists. -/
def listContains (pat : List Char) : List Char → Bool
  | [] => pat.isEmpty
  | c :: cs => pat.isPrefixOf (c :: cs) || listContains pat cs

/-- The loop-prevention filter test `"fogTimeID" in description`. -/
def hasFogSub (s : String) : Bool :=
  listContains "fogTimeID".data s.data

/-- `noNl s` holds when `s` is free of newline characters. -/
def noNl (s : String) : Bool := !hasNl s.data

/-! ### Elementary lemmas about the scanning machinery -/

theorem hasNl_append (a b : List Char) :
    hasNl (a ++ b) = (hasNl a || hasNl b) := by
  induction a with
  | nil => simp [hasNl]
  | cons c cs ih => simp [hasNl, ih, Bool.or_assoc]

theorem hasNl_eq_false_iff (l : List Char) :
    hasNl l = false ↔ ∀ c ∈ l, c ≠ '\n' := by
  induction l with
  | nil => simp [hasNl]
  | cons c cs ih =>
      simp only [hasNl, Bool.or_eq_false_iff, ih, decide_eq_false_iff_not,
        List.mem_cons]
      constructor
      · rintro ⟨h1, h2⟩ x hx
        rcases hx with rfl | hx
        · exact h1
        · exact h2 x hx
      · intro h
        exact ⟨h c (Or.inl rfl), fun x hx => h x (Or.inr hx)⟩

theorem isPrefixOf_append_of_isPrefixOf (p l t : List Char)
    (h : p.isPrefixOf l = true) : p.isPrefixOf (l ++ t) = true := by
  induction p generalizing l with
  | nil => simp [List.isPrefixOf]
  | cons a as ih =>
      cases l with
      | nil => simp [List.isPrefixOf] at h
      | cons b bs =>
          simp only [List.isPrefixOf, Bool.and_eq_true, beq_iff_eq] at h ⊢
          exact ⟨h.1, ih bs h.2⟩

theorem isPrefixOf_trans (p q l : List Char)
    (h1 : p.isPrefixOf q = true) (h2 : q.isPrefixOf l = true) :
    p.isPrefixOf l = true := by
  induction p generalizing q l with
  | nil => simp [List.isPrefixOf]
  | cons a as ih =>
      cases q with
      | nil => simp [List.isPrefixOf] at h1
      | cons b bs =>
          cases l with
          | nil => simp [List.isPrefixOf] at h2
          | cons c cs =>
              simp only [List.isPrefixOf, Bool.and_eq_true, beq_iff_eq] at h1 h2 ⊢
              exact ⟨h1.1.trans h2.1, ih bs cs h1.2 h2.2⟩

theorem listContains_of_isPrefixOf (pat l : List Char)
    (h : pat.isPrefixOf l = true) : listContains pat l = true := by
  cases l with
  | nil =>
      cases pat with
      | nil => simp [listContains]
      | cons a as => simp [List.isPrefixOf] at h
  | cons c cs => simp [listContains, h]

theorem listContains_cons (pat : List Char) (c : Char) (cs : List Char)
    (h : listContains pat cs = true) : listContains pat (c :: cs) = true := by
  simp [listContains, h]

theorem listContains_nil_pat (l : List Char) : listContains [] l = true := by
  cases l with
  | nil => simp [listContains, List.isEmpty]
  | cons c cs => simp [listContains, List.isPrefixOf]

theorem listContains_append_left (pat a b : List Char)
    (h : listContains pat a = true) : listContains pat (a ++ b) = true := by
  induction a with
  | nil =>
      simp only [listContains] at h
      have : pat = [] := by
        cases pat with
        | nil => rfl
        | cons x xs => simp [List.isEmpty] at h
      subst this
      exact listContains_nil_pat b
  | cons c cs ih =>
      simp only [listContains, Bool.or_eq_true] at h
      rcases h with h | h
      · have := isPrefixOf_append_of_isPrefixOf pat (c :: cs) b h
        simpa [listContains] using Or.inl this
      · exact listContains_cons pat c (cs ++ b) (ih h)

theorem listContains_weaken (p q l : List Char)
    (hpq : p.isPrefixOf q = true) (h : listContains q l = true) :
    listContains p l = true := by
  induction l with
  | nil =>
      simp only [listContains] at h
      have : q = [] := by
        cases q with
        | nil => rfl
        | cons x xs => simp [List.isEmpty] at h
      subst this
      cases p with
      | nil => exact listContains_nil_pat []
      | cons a as => simp [List.isPrefixOf] at hpq
  | cons c cs ih =>
      simp only [listContains, Bool.or_eq_true] at h ⊢
      rcases h with h | h
      · exact Or.inl (isPrefixOf_trans p q (c :: cs) hpq h)
      · exact Or.inr (ih h)

theorem listContains_stripNl (pat l : List Char)
    (h : listContains pat (stripNl l) = true) : listContains pat l = true := by
  unfold stripNl at h
  by_cases hc : l.getLast? = some '\n'
  · rw [if_pos hc] at h
    have hmem : '\n' ∈ l.getLast? := hc ▸ rfl
    have hl : l.dropLast ++ ['\n'] = l := List.dropLast_append_getLast? '\n' hmem
    rw [← hl]
    exact listContains_append_left pat l.dropLast ['\n'] h
  · rwa [if_neg hc] at h

theorem scanTag_marker (l g : List Char) (h : scanTag l = some g) :
    listContains tagMarker l = true := by
  induction l with
  | nil => simp [scanTag] at h
  | cons c cs ih =>
      by_cases hp : (tagMarker.isPrefixOf (c :: cs)
          && !hasNl ((c :: cs).drop tagMarker.length)) = true
      · have hpre : tagMarker.isPrefixOf (c :: cs) = true := by
          simp only [Bool.and_eq_true] at hp; exact hp.1
        exact listContains_of_isPrefixOf _ _ hpre
      · rw [scanTag, if_neg hp] at h
        exact listContains_cons _ _ _ (ih h)

theorem scanTag_noNl (l g : List Char) (h : scanTag l = some g) :
    hasNl g = false := by
  induction l with
  | nil => simp [scanTag] at h
  | cons c cs ih =>
      by_cases hp : (tagMarker.isPrefixOf (c :: cs)
          && !hasNl ((c :: cs).drop tagMarker.length)) = true
      · rw [scanTag, if_pos hp] at h
        simp only [Bool.and_eq_true, Bool.not_eq_true'] at hp
        cases h
        exact hp.2
      · rw [scanTag, if_neg hp] at h
        exact ih h

/-- A decoded tag implies the `"fogTimeID"` substring test succeeds:
the collection filter is at least as broad as the decode rule. -/
theorem hasFogSub_of_decodeTag (s t : String) (h : decodeTag s = some t) :
    hasFogSub s = true := by
  unfold decodeTag at h
  cases hscan : scanTag (stripNl s.data) with
  | none => rw [hscan] at h; simp at h
  | some g =>
      have hm := scanTag_marker _ _ hscan
      have hsub : listContains tagMarker s.data = true :=
        listContains_stripNl _ _ hm
      have hpre : ("fogTimeID".data).isPrefixOf tagMarker = true := by decide
      exact listContains_weaken _ _ _ hpre hsub

theorem noNl_isPrefixOf_split (p : List Char) (hp0 : hasNl p = false) :
    ∀ (u v w : List Char), p.isPrefixOf w = true → w = u ++ '\n' :: v →
      p.length ≤ u.length := by
  induction p with
  | nil => intro u v w _ _; simp
  | cons a as ih =>
      intro u v w hpre hw
      subst hw
      cases u with
      | nil =>
          simp only [List.nil_append, List.isPrefixOf, Bool.and_eq_true,
            beq_iff_eq] at hpre
          exfalso
          have : a = '\n' := hpre.1
          simp [hasNl, this] at hp0
      | cons b bs =>
          simp only [List.cons_append, List.isPrefixOf, Bool.and_eq_true] at hpre
          have hml : hasNl as = false := by
            simp only [hasNl, Bool.or_eq_false_iff] at hp0
            exact hp0.2
          have := ih hml bs v (bs ++ '\n' :: v) hpre.2 rfl
          simpa [List.length_cons] using Nat.succ_le_succ this

theorem scanTag_of_pre (l : List Char)
    (hpre : tagMarker.isPrefixOf l = true)
    (hnl : hasNl (l.drop tagMarker.length) = false) :
    scanTag l = some (l.drop tagMarker.length) := by
  cases l with
  | nil => exact absurd hpre (by decide)
  | cons c cs => simp [scanTag, hpre, hnl]

theorem scanTag_cons_of_neg (c : Char) (cs : List Char)
    (h : (tagMarker.isPrefixOf (c :: cs)
        && !hasNl ((c :: cs).drop tagMarker.length)) = false) :
    scanTag (c :: cs) = scanTag cs := by
  simp only [scanTag, h]
  simp

theorem scanTag_roundtrip (d x : List Char) (hx : hasNl x = false) :
    scanTag (d ++ '\n' :: (tagMarker ++ x)) = some x := by
  induction d with
  | nil =>
      simp only [List.nil_append]
      have h1 : (tagMarker.isPrefixOf ('\n' :: (tagMarker ++ x))
          && !hasNl (('\n' :: (tagMarker ++ x)).drop tagMarker.length)) = false := by
        have : tagMarker.isPrefixOf ('\n' :: (tagMarker ++ x)) = false := by
          simp [tagMarker, List.isPrefixOf]
        simp [this]
      rw [scanTag_cons_of_neg _ _ h1]
      have hpre : tagMarker.isPrefixOf (tagMarker ++ x) = true :=
        isPrefixOf_append_of_isPrefixOf tagMarker tagMarker x (by decide)
      have hdrop : (tagMarker ++ x).drop tagMarker.length = x := List.drop_left _ _
      rw [scanTag_of_pre _ hpre (by rw [hdrop]; exact hx), hdrop]
  | cons c d ih =>
      have hassoc : c :: (d ++ '\n' :: (tagMarker ++ x))
          = (c :: d) ++ '\n' :: (tagMarker ++ x) := rfl
      have hcond : (tagMarker.isPrefixOf (c :: (d ++ '\n' :: (tagMarker ++ x)))
          && !hasNl ((c :: (d ++ '\n' :: (tagMarker ++ x))).drop tagMarker.length))
          = false := by
        by_cases hp : tagMarker.isPrefixOf (c :: (d ++ '\n' :: (tagMarker ++ x))) = true
        · have hlen : tagMarker.length ≤ (c :: d).length := by
            refine noNl_isPrefixOf_split tagMarker (by decide) (c :: d)
              (tagMarker ++ x) _ hp ?_
            exact hassoc
          have hdrop : ((c :: d) ++ '\n' :: (tagMarker ++ x)).drop tagMarker.length
              = (c :: d).drop tagMarker.length ++ '\n' :: (tagMarker ++ x) := by
            rw [List.drop_append_eq_append_drop, Nat.sub_eq_zero_of_le hlen,
              List.drop_zero]
          have hnl2 : hasNl ((c :: (d ++ '\n' :: (tagMarker ++ x)))
              |>.drop tagMarker.length) = true := by
            rw [hassoc, hdrop, hasNl_append]
            simp [hasNl]
          simp [hp, hnl2]
        · simp only [Bool.not_eq_true] at hp
          simp [hp]
      show scanTag (c :: (d ++ '\n' :: (tagMarker ++ x))) = some x
      rw [scanTag_cons_of_neg _ _ hcond]
      exact ih

theorem getLast_not_nl (d x : List Char) (hx : hasNl x = false) :
    (d ++ '\n' :: (tagMarker ++ x)).getLast? ≠ some '\n' := by
  have hsplit : d ++ '\n' :: (tagMarker ++ x) = (d ++ ['\n']) ++ (tagMarker ++ x) := by
    simp
  rw [hsplit, List.getLast?_append_of_ne_nil _ (by simp [tagMarker])]
  cases x with
  | nil =>
      intro h
      rw [List.append_nil] at h
      exact absurd h (by decide)
  | cons y ys =>
      rw [List.getLast?_append_of_ne_nil _ (by simp)]
      rw [List.getLast?_eq_getLast_of_ne_nil (by simp)]
      intro h
      have hmem : (y :: ys).getLast (by simp) ∈ y :: ys := List.getLast_mem _
      have := (hasNl_eq_false_iff (y :: ys)).mp hx _ hmem
      simp only [Option.some.injEq] at h
      exact this h

/-- Round-trip of the tag scheme at the string level: appending the tag
line `fogTimeID: x` to any description `d` decodes back to exactly `x`,
for `x` free of newlines. -/
theorem decode_roundtrip (d x : String) (hx : noNl x = true) :
    decodeTag (d ++ "\nfogTimeID: " ++ x) = some x := by
  have hxl : hasNl x.data = false := by
    simpa [noNl, Bool.not_eq_true'] using hx
  have hdata : (d ++ "\nfogTimeID: " ++ x).data
      = d.data ++ '\n' :: (tagMarker ++ x.data) := by
    rw [String.data_append, String.data_append]
    have : ("\nfogTimeID: " : String).data = '\n' :: tagMarker := rfl
    rw [this]
    simp
  unfold decodeTag
  rw [hdata]
  have hstrip : stripNl (d.data ++ '\n' :: (tagMarker ++ x.data))
      = d.data ++ '\n' :: (tagMarker ++ x.data) := by
    unfold stripNl
    rw [if_neg (getLast_not_nl _ _ hxl)]
  rw [hstrip, scanTag_roundtrip _ _ hxl]
  cases x
  rfl

/-! ### Data model

`GTime` is the Google wire form of a time bound: a dict with `date` /
`dateTime` keys (a missing key is `none`).  `RawEvent` carries the
fields of a fetched event resource that `main.py` reads: `id`,
`summary` (read with direct indexing `event["summary"]`), `description`
(read with `event.get("description", ...)`, hence optional) and the two
time bounds.  `CalendarTimeStamp` and `CalendarEvent` are the two
dataclasses.  Python truthiness of an optional string (`None` and `""`
falsy) is `truthy`. -/

structure GTime where
  date : Option String
  dateTime : Option String
deriving DecidableEq, Repr

structure RawEvent where
  id : String
  summary : String
  description : Option String
  start : GTime
  end_ : GTime
deriving DecidableEq, Repr

structure CalendarTimeStamp where
  date : Option String := none
  date_time : Option String := none
deriving DecidableEq, Repr

structure CalendarEvent where
  id : String
  start : CalendarTimeStamp
  end_ : CalendarTimeStamp
  originalID : Option String := none
  summary : Option String := none
  description : Option String := none
deriving DecidableEq, Repr

def truthy : Option String → Bool
  | none => false
  | some s => !(s == "")

/-- `CalendarTimeStamp.get_google_dict`: emit the populated variant and
null the other; falls off the end (returns `None`) when neither field is
truthy. -/
def CalendarTimeStamp.get_google_dict (t : CalendarTimeStamp) : Option GTime :=
  if truthy t.date then some ⟨t.date, none⟩
  else if truthy t.date_time then some ⟨none, t.date_time⟩
  else none

/-- `CalendarEvent.__eq__`: structural comparison over
`(id, start, end, summary, description)`; `originalID` does not
participate. -/
def CalendarEvent.eq (a b : CalendarEvent) : Bool :=
  decide (a.id = b.id ∧ a.start = b.start ∧ a.end_ = b.end_
    ∧ a.summary = b.summary ∧ a.description = b.description)

/-- `create_calender_event_object` (sic): normalize a raw record.  The
canonical `id` is the decoded tag when the regex matches (a match
object is truthy even for an empty group), else the store id;
`originalID` is always the store id; `summary`/`description` are kept
only when `keep_info`. -/
def create_calender_event_object (event : RawEvent) (keep_info : Bool) :
    CalendarEvent :=
  { id := match decodeTag (event.description.getD "") with
          | some g => g
          | none => event.id
    originalID := some event.id
    start := ⟨event.start.date, event.start.dateTime⟩
    end_ := ⟨event.end_.date, event.end_.dateTime⟩
    summary := if keep_info then some event.summary else none
    description := if keep_info then some (event.description.getD "") else none }

/-- Canonical identity of a raw record, as computed during
normalization. -/
def canonOf (event : RawEvent) : String :=
  match decodeTag (event.description.getD "") with
  | some g => g
  | none => event.id

theorem create_id (event : RawEvent) (keep_info : Bool) :
    (create_calender_event_object event keep_info).id = canonOf event := rfl

/-! ### Python dicts as association lists

Insertion order is preserved; overwriting an existing key keeps its
position, exactly like a CPython `dict`. -/

abbrev Dict : Type := List (String × CalendarEvent)

def dinsert (k : String) (v : CalendarEvent) : Dict → Dict
  | [] => [(k, v)]
  | kv :: rest => if kv.1 = k then (k, v) :: rest else kv :: dinsert k v rest

def dlookup (k : String) : Dict → Option CalendarEvent
  | [] => none
  | kv :: rest => if kv.1 = k then some kv.2 else dlookup k rest

def dkeys (d : Dict) : List String := d.map Prod.fst

/-- `dict.update(other)`: insert every item of `other`, in order. -/
def dupdate (d other : Dict) : Dict :=
  other.foldl (fun acc kv => dinsert kv.1 kv.2 acc) d

/-- Build a dict from normalized events, keyed by canonical id
(`my_events[event.id] = event` in a loop). -/
def buildDict (es : List CalendarEvent) : Dict :=
  es.foldl (fun d e => dinsert e.id e d) []

/-- `get_calendar_events(client, calendar_id, keep_infos)`: the fetched
raw records are the `events` argument.  With `keep_infos = false`,
records whose description contains `"fogTimeID"` are dropped before
normalization. -/
def get_calendar_events (events : List RawEvent) (keep_infos : Bool) : Dict :=
  let evs := if keep_infos then events
             else events.filter (fun e => !hasFogSub (e.description.getD ""))
  buildDict (evs.map (fun e => create_calender_event_object e keep_infos))

/-- `get_blockers(client, calendar_id)`: keep only records whose raw
summary is the placeholder label, normalized with `keep_info = False`. -/
def get_blockers (events : List RawEvent) : Dict :=
  events.foldl
    (fun blockers event =>
      if event.summary = "FogTime Blocker"
      then (let b := create_calender_event_object event false; dinsert b.id b blockers)
      else blockers)
    []

/-- `get_not_blocker(client, calendar_id)`: collect with
`keep_infos=True` (so no tag filtering), then keep the entries whose
summary differs from the placeholder label. -/
def get_not_blocker (events : List RawEvent) : Dict :=
  (get_calendar_events events true).foldl
    (fun nb kv =>
      if kv.2.summary ≠ some "FogTime Blocker" then dinsert kv.1 kv.2 nb else nb)
    []

/-- The forward-phase desired map built in `main`:
`my_events.update(get_calendar_events(client, calendar_id))` over the
configured source calendars. -/
def collect_my_events (sources : List (List RawEvent)) : Dict :=
  sources.foldl (fun d evs => dupdate d (get_calendar_events evs false)) []

/-! ### Write API actions

`insert` carries the four payload fields that `create_event` sends;
`patch` carries the body that `update_blocker` builds: `start`/`end`
keys are always present (their value may still be Python `None` when
`get_google_dict` falls through), `summary`/`description` keys are
present only when the corresponding event field is truthy.  In a
`PatchBody`, `none` in `summary`/`description` therefore means "key
absent: keep the stored value". -/

structure EventBody where
  summary : Option String
  description : Option String
  start : Option GTime
  end_ : Option GTime
deriving DecidableEq, Repr

structure PatchBody where
  start : Option GTime
  end_ : Option GTime
  summary : Option String
  description : Option String
deriving DecidableEq, Repr

inductive Action where
  | create (body : EventBody)
  | update (eventId : Option String) (body : PatchBody)
  | delete (eventId : Option String)
deriving DecidableEq, Repr

/-- `create_event(client, calendar_id, blocker)`: one `insert` call. -/
def create_event (blocker : CalendarEvent) : Action :=
  .create ⟨blocker.summary, blocker.description,
    blocker.start.get_google_dict, blocker.end_.get_google_dict⟩

/-- `update_blocker(client, calendar_id, my_event, blocker)`: one
`patch` call on `blocker.originalID`. -/
def update_blocker (my_event blocker : CalendarEvent) : Action :=
  .update blocker.originalID
    ⟨my_event.start.get_google_dict, my_event.end_.get_google_dict,
     if truthy my_event.summary then my_event.summary else none,
     if truthy my_event.description then my_event.description else none⟩

/-- `sync_blockers(client, calendar_id, my_events, blockers)` as the
sequence of write actions it issues: first the create/update loop over
`my_events` (comparison happens before the description is overwritten
with the explanatory line plus tag), then the delete loop over
`blockers`. -/
def sync_blockers (my_events blockers : Dict) : List Action :=
  (my_events.flatMap (fun kv =>
    match dlookup kv.1 blockers with
    | some blocker =>
        if CalendarEvent.eq kv.2 blocker then []
        else [update_blocker
          { kv.2 with
            description := some ("This is a blocker event created by fogTime.\nfogTimeID: "
                                  ++ kv.2.id) }
          blocker]
    | none =>
        [create_event
          { kv.2 with
            summary := some "FogTime Blocker",
            description := some ("This is a blocker event created by fogTime.\nfogTimeID: "
                                  ++ kv.2.id) }]))
  ++ blockers.flatMap (fun kv =>
    if dlookup kv.1 my_events = none then [Action.delete kv.2.originalID] else [])

/-- The reverse desired map after the stamping loop
`event.description = f"{event.description}\nfogTimeID: {event.id}"`
(an `f`-string renders a `None` description as the text `"None"`). -/
def reverse_desired (source_events : List RawEvent) : Dict :=
  (get_not_blocker source_events).map (fun kv =>
    (kv.1, { kv.2 with
             description := some ((match kv.2.description with
                                   | some d => d
                                   | none => "None") ++ "\nfogTimeID: " ++ kv.2.id) }))

/-- `sync_reverse(client, source_calendar_id, target_calendar_id)` as
the sequence of write actions it issues: the create/update loop over
the stamped `not_blockers`, then the delete loop over
`original_appointments`, whose deletes additionally require
`"fogTimeID" in event.description`. -/
def sync_reverse (source_events target_events : List RawEvent) : List Action :=
  let not_blockers := reverse_desired source_events
  let original_appointments := get_calendar_events target_events true
  (not_blockers.flatMap (fun kv =>
    match dlookup kv.1 original_appointments with
    | some o =>
        if CalendarEvent.eq kv.2 o then [] else [update_blocker kv.2 o]
    | none => [create_event kv.2]))
  ++ original_appointments.flatMap (fun kv =>
    if dlookup kv.1 not_blockers = none
        && hasFogSub (kv.2.description.getD "")
    then [Action.delete kv.2.originalID] else [])

/-! ### Store semantics of the write API

A calendar is a list of raw records.  `insert` appends a record under a
store-chosen fresh id, `patch` replaces the fields present in the body
on the (unique) record with the given id, `delete` removes it.  The
fresh ids are supplied by a function `Nat → String` threaded with a
counter. -/

def newRawEvent (fid : String) (b : EventBody) : RawEvent :=
  { id := fid, summary := b.summary.getD "", description := b.description,
    start := b.start.getD ⟨none, none⟩, end_ := b.end_.getD ⟨none, none⟩ }

def applyPatch (b : PatchBody) (r : RawEvent) : RawEvent :=
  { r with
    start := b.start.getD r.start,
    end_ := b.end_.getD r.end_,
    summary := b.summary.getD r.summary,
    description := match b.description with
                   | some d => some d
                   | none => r.description }

def patchList (i : String) (b : PatchBody) : List RawEvent → List RawEvent
  | [] => []
  | r :: rs => if r.id = i then applyPatch b r :: rs else r :: patchList i b rs

def deleteList (i : String) : List RawEvent → List RawEvent
  | [] => []
  | r :: rs => if r.id = i then rs else r :: deleteList i rs

def applyAction (fresh : Nat → String) :
    (List RawEvent × Nat) → Action → (List RawEvent × Nat)
  | (st, n), .create b => (st ++ [newRawEvent (fresh n) b], n + 1)
  | (st, n), .update (some i) b => (patchList i b st, n)
  | (st, n), .update none _ => (st, n)
  | (st, n), .delete (some i) => (deleteList i st, n)
  | (st, n), .delete none => (st, n)

def applyActions (fresh : Nat → String) (st : List RawEvent) (n : Nat)
    (acts : List Action) : List RawEvent × Nat :=
  acts.foldl (applyAction fresh) (st, n)

/-! ### The supervisor loop (`main`)

The configured calendar ids, and one cycle of `main`'s `while True`
body.  A cycle's external reads are a fallible fetch map (an
`HttpError` or similar is an `Except.error`); the `do` block has no
inner handler, so the first failing fetch aborts the rest of the cycle.
`main_loop env n` is the observable trace after `n` iterations: the
printed log lines, the number of times the fixed `sleep(300)` delay ran,
and whether the loop is still alive. -/

def MY_CALENDARS : List String := ["primary", "another@group.calendar.google.com"]

def TARGET_CALENDER : String := "target@group.calendar.google.com"

def REVERSE_TARGET_CALENDER : String := "primary"

structure CycleEnv where
  fetch : String → Except String (List RawEvent)

def run_cycle (env : CycleEnv) : Except String (List Action × List Action) := do
  let my_events ← MY_CALENDARS.foldlM
    (fun d cal => do
      let evs ← env.fetch cal
      pure (dupdate d (get_calendar_events evs false)))
    ([] : Dict)
  let targetEvs ← env.fetch TARGET_CALENDER
  let fwd := sync_blockers my_events (get_blockers targetEvs)
  let srcEvs ← env.fetch TARGET_CALENDER
  let revTargetEvs ← env.fetch REVERSE_TARGET_CALENDER
  let rev := sync_reverse srcEvs revTargetEvs
  pure (fwd, rev)

structure LoopTrace where
  logs : List String
  sleeps : Nat
  alive : Bool
deriving DecidableEq, Repr

/-- The trace of `main` after `n` iterations of `while True`: every
exception from the `try` body is caught by the single
`except Exception` boundary and printed; `sleep(300)` runs after the
`try`/`except` on success and failure alike; the loop never exits. -/
def main_loop (env : Nat → CycleEnv) : Nat → LoopTrace
  | 0 => ⟨["Welcome to fogTime!"], 0, true⟩
  | n + 1 =>
      let t := main_loop env n
      match run_cycle (env n) with
      | .ok _ => ⟨t.logs, t.sleeps + 1, true⟩
      | .error e =>
          ⟨t.logs ++ ["An error occurred, retry next iteration: " ++ e],
           t.sleeps + 1, true⟩

/-! ### Dictionary lemmas -/

theorem dlookup_dinsert (k k2 : String) (v : CalendarEvent) (d : Dict) :
    dlookup k (dinsert k2 v d) = if k2 = k then some v else dlookup k d := by
  induction d with
  | nil => simp [dinsert, dlookup]
  | cons kv rest ih =>
      by_cases h : kv.1 = k2
      · rw [dinsert, if_pos h]
        by_cases h2 : k2 = k
        · simp [dlookup, h2]
        · rw [if_neg h2]
          rw [dlookup, if_neg h2, dlookup]
          rw [if_neg (by rw [h]; exact h2)]
      · rw [dinsert, if_neg h]
        by_cases h3 : kv.1 = k
        · rw [dlookup, if_pos h3, if_neg (by intro e; exact h (e ▸ h3.symm ▸ rfl))]
          rw [dlookup, if_pos h3]
        · rw [dlookup, if_neg h3, ih, dlookup, if_neg h3]

theorem mem_dinsert (kv : String × CalendarEvent) (k : String)
    (v : CalendarEvent) (d : Dict) (h : kv ∈ dinsert k v d) :
    kv = (k, v) ∨ kv ∈ d := by
  induction d with
  | nil => simpa [dinsert] using h
  | cons kv2 rest ih =>
      by_cases h2 : kv2.1 = k
      · rw [dinsert, if_pos h2] at h
        rcases List.mem_cons.mp h with h | h
        · exact Or.inl h
        · exact Or.inr (List.mem_cons_of_mem _ h)
      · rw [dinsert, if_neg h2] at h
        rcases List.mem_cons.mp h with h | h
        · exact Or.inr (h ▸ List.mem_cons_self _ _)
        · rcases ih h with h | h
          · exact Or.inl h
          · exact Or.inr (List.mem_cons_of_mem _ h)

theorem dkeys_dinsert (k : String) (v : CalendarEvent) (d : Dict) :
    ∀ x, x ∈ dkeys (dinsert k v d) ↔ x ∈ dkeys d ∨ x = k := by
  intro x
  induction d with
  | nil => simp [dinsert, dkeys]
  | cons kv rest ih =>
      by_cases h : kv.1 = k
      · rw [dinsert, if_pos h]
        simp only [dkeys, List.map_cons, List.mem_cons] at ih ⊢
        rw [h]
        tauto
      · rw [dinsert, if_neg h]
        simp only [dkeys, List.map_cons, List.mem_cons] at ih ⊢
        rw [ih]
        tauto

theorem nodup_dkeys_dinsert (k : String) (v : CalendarEvent) (d : Dict)
    (h : (dkeys d).Nodup) : (dkeys (dinsert k v d)).Nodup := by
  induction d with
  | nil => simp [dinsert, dkeys]
  | cons kv rest ih =>
      simp only [dkeys, List.map_cons, List.nodup_cons] at h
      by_cases h2 : kv.1 = k
      · rw [dinsert, if_pos h2]
        simp only [dkeys, List.map_cons, List.nodup_cons]
        exact ⟨h2 ▸ h.1, h.2⟩
      · rw [dinsert, if_neg h2]
        simp only [dkeys, List.map_cons, List.nodup_cons]
        refine ⟨?_, ih h.2⟩
        intro hmem
        rcases (dkeys_dinsert k v rest kv.1).mp hmem with hx | hx
        · exact h.1 hx
        · exact h2 hx

theorem dlookup_ne_none_of_mem (kv : String × CalendarEvent) (d : Dict)
    (h : kv ∈ d) : dlookup kv.1 d ≠ none := by
  induction d with
  | nil => simp at h
  | cons kv2 rest ih =>
      rcases List.mem_cons.mp h with rfl | h
      · simp [dlookup]
      · by_cases h2 : kv2.1 = kv.1
        · simp [dlookup, h2]
        · rw [dlookup, if_neg h2]
          exact ih h

theorem dlookup_mem (k : String) (v : CalendarEvent) (d : Dict)
    (h : dlookup k d = some v) : (k, v) ∈ d := by
  induction d with
  | nil => simp [dlookup] at h
  | cons kv rest ih =>
      by_cases h2 : kv.1 = k
      · rw [dlookup, if_pos h2] at h
        cases h
        subst h2
        exact List.mem_cons_self kv rest
      · rw [dlookup, if_neg h2] at h
        exact List.mem_cons_of_mem _ (ih h)

theorem dlookup_of_mem_nodup (kv : String × CalendarEvent) (d : Dict)
    (hnd : (dkeys d).Nodup) (h : kv ∈ d) : dlookup kv.1 d = some kv.2 := by
  induction d with
  | nil => simp at h
  | cons kv2 rest ih =>
      simp only [dkeys, List.map_cons, List.nodup_cons] at hnd
      rcases List.mem_cons.mp h with rfl | h
      · simp [dlookup]
      · have hne : kv2.1 ≠ kv.1 := by
          intro he
          exact hnd.1 (he ▸ List.mem_map_of_mem Prod.fst h)
        rw [dlookup, if_neg hne]
        exact ih hnd.2 h

theorem dlookup_none_iff (k : String) (d : Dict) :
    dlookup k d = none ↔ k ∉ dkeys d := by
  induction d with
  | nil => simp [dlookup, dkeys]
  | cons kv rest ih =>
      by_cases h : kv.1 = k
      · simp [dlookup, h, dkeys]
      · rw [dlookup, if_neg h]
        simp only [dkeys, List.map_cons, List.mem_cons] at ih ⊢
        rw [ih]
        constructor
        · intro hk hc
          rcases hc with hc | hc
          · exact h hc.symm
          · exact hk hc
        · intro hk hc
          exact hk (Or.inr hc)

/-! ### Characterizing the collector dictionaries -/

theorem mem_foldl_dinsert_pairs (l : List (String × CalendarEvent))
    (Q : CalendarEvent → Prop) [DecidablePred Q] :
    ∀ (d : Dict) (kv : String × CalendarEvent),
      kv ∈ l.foldl (fun acc kv2 => if Q kv2.2 then dinsert kv2.1 kv2.2 acc else acc) d →
      kv ∈ d ∨ (kv ∈ l ∧ Q kv.2) := by
  induction l with
  | nil => intro d kv h; exact Or.inl h
  | cons kv2 rest ih =>
      intro d kv h
      rw [List.foldl_cons] at h
      rcases ih _ kv h with h2 | h2
      · by_cases hq : Q kv2.2
        · rw [if_pos hq] at h2
          rcases mem_dinsert _ _ _ _ h2 with h3 | h3
          · subst h3
            exact Or.inr ⟨List.mem_cons_self _ _, hq⟩
          · exact Or.inl h3
        · rw [if_neg hq] at h2
          exact Or.inl h2
      · exact Or.inr ⟨List.mem_cons_of_mem _ h2.1, h2.2⟩

theorem mem_buildDict_aux (es : List CalendarEvent) :
    ∀ (d : Dict) (kv : String × CalendarEvent),
      kv ∈ es.foldl (fun d e => dinsert e.id e d) d →
      kv ∈ d ∨ (kv.2 ∈ es ∧ kv.1 = kv.2.id) := by
  induction es with
  | nil => intro d kv h; exact Or.inl h
  | cons e rest ih =>
      intro d kv h
      rw [List.foldl_cons] at h
      rcases ih _ kv h with h2 | h2
      · rcases mem_dinsert _ _ _ _ h2 with h3 | h3
        · subst h3
          exact Or.inr ⟨List.mem_cons_self _ _, rfl⟩
        · exact Or.inl h3
      · exact Or.inr ⟨List.mem_cons_of_mem _ h2.1, h2.2⟩

theorem mem_buildDict (es : List CalendarEvent) (kv : String × CalendarEvent)
    (h : kv ∈ buildDict es) : kv.2 ∈ es ∧ kv.1 = kv.2.id := by
  rcases mem_buildDict_aux es [] kv h with h2 | h2
  · simp at h2
  · exact h2

theorem nodup_dkeys_buildDict_aux (es : List CalendarEvent) :
    ∀ d : Dict, (dkeys d).Nodup →
      (dkeys (es.foldl (fun d e => dinsert e.id e d) d)).Nodup := by
  induction es with
  | nil => intro d h; exact h
  | cons e rest ih =>
      intro d h
      rw [List.foldl_cons]
      exact ih _ (nodup_dkeys_dinsert _ _ _ h)

theorem nodup_dkeys_buildDict (es : List CalendarEvent) :
    (dkeys (buildDict es)).Nodup :=
  nodup_dkeys_buildDict_aux es [] (by simp [dkeys])

/-- Rightmost element of `es` whose canonical id is `k`; a Python dict
built by inserting in order holds this element at key `k`. -/
def lastWithKey (k : String) : List CalendarEvent → Option CalendarEvent
  | [] => none
  | e :: rest =>
      match lastWithKey k rest with
      | some x => some x
      | none => if e.id = k then some e else none

theorem dlookup_buildDict_aux (k : String) (es : List CalendarEvent) :
    ∀ d : Dict,
      dlookup k (es.foldl (fun d e => dinsert e.id e d) d)
        = match lastWithKey k es with
          | some x => some x
          | none => dlookup k d := by
  induction es with
  | nil => intro d; simp [lastWithKey]
  | cons e rest ih =>
      intro d
      rw [List.foldl_cons, ih]
      rw [lastWithKey]
      cases hrest : lastWithKey k rest with
      | some x => simp
      | none =>
          simp only
          rw [dlookup_dinsert]
          by_cases he : e.id = k
          · simp [he]
          · simp [he]

theorem dlookup_buildDict (k : String) (es : List CalendarEvent) :
    dlookup k (buildDict es) = lastWithKey k es := by
  rw [buildDict, dlookup_buildDict_aux]
  cases h : lastWithKey k es with
  | some x => simp
  | none => simp [dlookup]

theorem lastWithKey_append (k : String) (a b : List CalendarEvent) :
    lastWithKey k (a ++ b)
      = match lastWithKey k b with
        | some x => some x
        | none => lastWithKey k a := by
  induction a with
  | nil =>
      simp only [List.nil_append]
      cases h : lastWithKey k b with
      | some x => simp
      | none => simp [lastWithKey]
  | cons e rest ih =>
      rw [List.cons_append, lastWithKey, ih, lastWithKey]
      cases h : lastWithKey k b with
      | some x => simp
      | none => simp

/-- Rightmost raw record in the store satisfying `c` with canonical id
`k`. -/
def lastStore (c : RawEvent → Bool) (k : String) : List RawEvent → Option RawEvent
  | [] => none
  | r :: rest =>
      match lastStore c k rest with
      | some x => some x
      | none => if c r ∧ canonOf r = k then some r else none

theorem lastWithKey_filter_map (c : RawEvent → Bool) (keep : Bool) (k : String)
    (st : List RawEvent) :
    lastWithKey k ((st.filter c).map (fun r => create_calender_event_object r keep))
      = (lastStore c k st).map (fun r => create_calender_event_object r keep) := by
  induction st with
  | nil => simp [lastWithKey, lastStore]
  | cons r rest ih =>
      rw [lastStore]
      by_cases hc : c r = true
      · rw [List.filter_cons_of_pos hc, List.map_cons, lastWithKey, ih]
        cases h : lastStore c k rest with
        | some x => simp
        | none =>
            simp only [Option.map_none']
            by_cases hk : canonOf r = k
            · rw [create_id, if_pos hk, if_pos ⟨hc, hk⟩]
              simp
            · rw [create_id, if_neg hk, if_neg (by intro h2; exact hk h2.2)]
              simp
      · rw [List.filter_cons_of_neg (by simpa using hc), ih]
        cases h : lastStore c k rest with
        | some x => simp
        | none =>
            simp only [Option.map_none']
            rw [if_neg (by intro h2; exact hc h2.1)]
            simp

/-- Generic form of the three collectors: filter the store, normalize,
insert keyed by canonical id. -/
def collectD (c : RawEvent → Bool) (keep : Bool) (st : List RawEvent) : Dict :=
  buildDict ((st.filter c).map (fun r => create_calender_event_object r keep))

theorem dlookup_collectD (c : RawEvent → Bool) (keep : Bool) (k : String)
    (st : List RawEvent) :
    dlookup k (collectD c keep st)
      = (lastStore c k st).map (fun r => create_calender_event_object r keep) := by
  rw [collectD, dlookup_buildDict, lastWithKey_filter_map]

theorem lastStore_mem (c : RawEvent → Bool) (k : String) (st : List RawEvent)
    (r : RawEvent) (h : lastStore c k st = some r) :
    r ∈ st ∧ c r = true ∧ canonOf r = k := by
  induction st with
  | nil => simp [lastStore] at h
  | cons r2 rest ih =>
      rw [lastStore] at h
      cases h2 : lastStore c k rest with
      | some x =>
          rw [h2] at h
          cases h
          have := ih h2
          exact ⟨List.mem_cons_of_mem _ this.1, this.2⟩
      | none =>
          rw [h2] at h
          simp only at h
          by_cases h3 : c r2 = true ∧ canonOf r2 = k
          · rw [if_pos h3] at h
            cases h
            exact ⟨List.mem_cons_self _ _, h3⟩
          · rw [if_neg h3] at h
            simp at h

theorem lastStore_none_iff (c : RawEvent → Bool) (k : String) (st : List RawEvent) :
    lastStore c k st = none ↔ ∀ r ∈ st, ¬(c r = true ∧ canonOf r = k) := by
  induction st with
  | nil => simp [lastStore]
  | cons r2 rest ih =>
      rw [lastStore]
      cases h2 : lastStore c k rest with
      | some x =>
          simp only
          constructor
          · intro h; simp at h
          · intro h
            have := lastStore_mem c k rest x h2
            exact absurd ⟨this.2.1, this.2.2⟩ (h x (List.mem_cons_of_mem _ this.1))
      | none =>
          simp only
          by_cases h3 : c r2 = true ∧ canonOf r2 = k
          · rw [if_pos h3]
            constructor
            · intro h; simp at h
            · intro h; exact absurd h3 (h r2 (List.mem_cons_self _ _))
          · rw [if_neg h3]
            constructor
            · intro _ r hr
              rcases List.mem_cons.mp hr with rfl | hr
              · exact h3
              · exact (ih.mp h2) r hr
            · intro _; rfl

theorem lastStore_append (c : RawEvent → Bool) (k : String) (a b : List RawEvent) :
    lastStore c k (a ++ b)
      = match lastStore c k b with
        | some x => some x
        | none => lastStore c k a := by
  induction a with
  | nil =>
      simp only [List.nil_append]
      cases h : lastStore c k b with
      | some x => simp
      | none => simp [lastStore]
  | cons r rest ih =>
      rw [List.cons_append, lastStore, ih, lastStore]
      cases h : lastStore c k b with
      | some x => simp
      | none => simp

theorem foldl_guard {α β : Type} (l : List α) (P : α → Prop) [DecidablePred P]
    (g : β → α → β) (i : β) :
    l.foldl (fun acc r => if P r then g acc r else acc) i
      = (l.filter (fun r => decide (P r))).foldl g i := by
  induction l generalizing i with
  | nil => rfl
  | cons a rest ih =>
      rw [List.foldl_cons]
      by_cases h : P a
      · rw [if_pos h, List.filter_cons_of_pos (by simpa using h), List.foldl_cons, ih]
      · rw [if_neg h, List.filter_cons_of_neg (by simpa using h), ih]

theorem get_blockers_eq (events : List RawEvent) :
    get_blockers events
      = collectD (fun e => decide (e.summary = "FogTime Blocker")) false events := by
  rw [get_blockers, collectD, buildDict, List.foldl_map,
    foldl_guard events (fun e => e.summary = "FogTime Blocker")]

theorem gce_true_eq (events : List RawEvent) :
    get_calendar_events events true = collectD (fun _ => true) true events := by
  rw [get_calendar_events, collectD]
  simp

theorem gce_false_eq (events : List RawEvent) :
    get_calendar_events events false
      = collectD (fun e => !hasFogSub (e.description.getD "")) false events := by
  rfl

theorem mem_collectD (c : RawEvent → Bool) (keep : Bool) (st : List RawEvent)
    (kv : String × CalendarEvent) (h : kv ∈ collectD c keep st) :
    ∃ r ∈ st, c r = true ∧ kv.2 = create_calender_event_object r keep
      ∧ kv.1 = kv.2.id := by
  have h2 := mem_buildDict _ _ h
  rcases List.mem_map.mp h2.1 with ⟨r, hr, hre⟩
  rcases List.mem_filter.mp hr with ⟨hrs, hrc⟩
  exact ⟨r, hrs, hrc, hre.symm, h2.2⟩

theorem nodup_dkeys_collectD (c : RawEvent → Bool) (keep : Bool)
    (st : List RawEvent) : (dkeys (collectD c keep st)).Nodup :=
  nodup_dkeys_buildDict _

theorem dlookup_nb_fold (d : Dict) :
    ∀ (acc : Dict), (dkeys d).Nodup → ∀ k,
      dlookup k (d.foldl
        (fun nb kv => if kv.2.summary ≠ some "FogTime Blocker"
                      then dinsert kv.1 kv.2 nb else nb) acc)
        = match dlookup k d with
          | some e => if e.summary ≠ some "FogTime Blocker" then some e else dlookup k acc
          | none => dlookup k acc := by
  induction d with
  | nil => intro acc _ k; simp [dlookup]
  | cons kv rest ih =>
      intro acc hnd k
      simp only [dkeys, List.map_cons, List.nodup_cons] at hnd
      rw [List.foldl_cons]
      rw [ih _ hnd.2 k]
      by_cases hk : kv.1 = k
      · have hrest : dlookup k rest = none := by
          rw [dlookup_none_iff]
          intro hc
          exact hnd.1 (hk ▸ hc)
        rw [hrest, dlookup, if_pos hk]
        show dlookup k (if kv.2.summary ≠ some "FogTime Blocker"
            then dinsert kv.1 kv.2 acc else acc)
          = if kv.2.summary ≠ some "FogTime Blocker" then some kv.2 else dlookup k acc
        by_cases hq : kv.2.summary ≠ some "FogTime Blocker"
        · rw [if_pos hq, if_pos hq, dlookup_dinsert, if_pos hk]
        · rw [if_neg hq, if_neg hq]
      · rw [dlookup, if_neg hk]
        cases hr : dlookup k rest with
        | some e =>
            show (if e.summary ≠ some "FogTime Blocker" then some e
                else dlookup k (if kv.2.summary ≠ some "FogTime Blocker"
                  then dinsert kv.1 kv.2 acc else acc))
              = if e.summary ≠ some "FogTime Blocker" then some e else dlookup k acc
            by_cases hq : e.summary ≠ some "FogTime Blocker"
            · rw [if_pos hq, if_pos hq]
            · rw [if_neg hq, if_neg hq]
              by_cases hq2 : kv.2.summary ≠ some "FogTime Blocker"
              · rw [if_pos hq2, dlookup_dinsert, if_neg hk]
              · rw [if_neg hq2]
        | none =>
            show dlookup k (if kv.2.summary ≠ some "FogTime Blocker"
                then dinsert kv.1 kv.2 acc else acc) = dlookup k acc
            by_cases hq2 : kv.2.summary ≠ some "FogTime Blocker"
            · rw [if_pos hq2, dlookup_dinsert, if_neg hk]
            · rw [if_neg hq2]

theorem dlookup_get_not_blocker (events : List RawEvent) (k : String) :
    dlookup k (get_not_blocker events)
      = match dlookup k (get_calendar_events events true) with
        | some e => if e.summary ≠ some "FogTime Blocker" then some e else none
        | none => none := by
  rw [get_not_blocker]
  have hnd : (dkeys (get_calendar_events events true)).Nodup := by
    rw [gce_true_eq]; exact nodup_dkeys_collectD _ _ _
  rw [dlookup_nb_fold _ _ hnd k]
  cases h : dlookup k (get_calendar_events events true) with
  | some e =>
      show (if e.summary ≠ some "FogTime Blocker" then some e else dlookup k []) = _
      rfl
  | none => rfl

theorem mem_nb_fold (d : Dict) :
    ∀ (acc : Dict) (kv : String × CalendarEvent),
      kv ∈ d.foldl
        (fun nb kv2 => if kv2.2.summary ≠ some "FogTime Blocker"
                       then dinsert kv2.1 kv2.2 nb else nb) acc →
      kv ∈ acc ∨ (kv ∈ d ∧ kv.2.summary ≠ some "FogTime Blocker") := by
  induction d with
  | nil => intro acc kv h; exact Or.inl h
  | cons kv2 rest ih =>
      intro acc kv h
      rw [List.foldl_cons] at h
      rcases ih _ kv h with h2 | h2
      · by_cases hq : kv2.2.summary ≠ some "FogTime Blocker"
        · rw [if_pos hq] at h2
          rcases mem_dinsert _ _ _ _ h2 with h3 | h3
          · subst h3
            exact Or.inr ⟨List.mem_cons_self _ _, hq⟩
          · exact Or.inl h3
        · rw [if_neg hq] at h2
          exact Or.inl h2
      · exact Or.inr ⟨List.mem_cons_of_mem _ h2.1, h2.2⟩

theorem mem_get_not_blocker (events : List RawEvent) (kv : String × CalendarEvent)
    (h : kv ∈ get_not_blocker events) :
    kv ∈ get_calendar_events events true ∧ kv.2.summary ≠ some "FogTime Blocker" := by
  rw [get_not_blocker] at h
  rcases mem_nb_fold _ [] kv h with h2 | h2
  · simp at h2
  · exact h2

theorem nodup_dkeys_nb_fold (d : Dict) :
    ∀ acc : Dict, (dkeys acc).Nodup →
      (dkeys (d.foldl
        (fun nb kv => if kv.2.summary ≠ some "FogTime Blocker"
                      then dinsert kv.1 kv.2 nb else nb) acc)).Nodup := by
  induction d with
  | nil => intro acc h; exact h
  | cons kv rest ih =>
      intro acc h
      rw [List.foldl_cons]
      by_cases hq : kv.2.summary ≠ some "FogTime Blocker"
      · rw [if_pos hq]
        exact ih _ (nodup_dkeys_dinsert _ _ _ h)
      · rw [if_neg hq]
        exact ih _ h

theorem nodup_dkeys_get_not_blocker (events : List RawEvent) :
    (dkeys (get_not_blocker events)).Nodup := by
  rw [get_not_blocker]
  exact nodup_dkeys_nb_fold _ [] (by simp [dkeys])

theorem mem_dupdate (d other : Dict) (kv : String × CalendarEvent)
    (h : kv ∈ dupdate d other) : kv ∈ d ∨ kv ∈ other := by
  rw [dupdate] at h
  induction other generalizing d with
  | nil => exact Or.inl h
  | cons kv2 rest ih =>
      rw [List.foldl_cons] at h
      rcases ih _ h with h2 | h2
      · rcases mem_dinsert _ _ _ _ h2 with h3 | h3
        · subst h3
          exact Or.inr (List.mem_cons_self _ _)
        · exact Or.inl h3
      · exact Or.inr (List.mem_cons_of_mem _ h2)

theorem mem_cme_fold (sources : List (List RawEvent)) (kv : String × CalendarEvent) :
    ∀ d : Dict,
      kv ∈ sources.foldl (fun d evs => dupdate d (get_calendar_events evs false)) d →
      kv ∈ d ∨ ∃ evs ∈ sources, kv ∈ get_calendar_events evs false := by
  induction sources with
  | nil => intro d h; exact Or.inl h
  | cons evs rest ih =>
      intro d h
      rw [List.foldl_cons] at h
      rcases ih _ h with h2 | h2
      · rcases mem_dupdate _ _ _ h2 with h3 | h3
        · exact Or.inl h3
        · exact Or.inr ⟨evs, List.mem_cons_self _ _, h3⟩
      · rcases h2 with ⟨evs2, hm, hkv⟩
        exact Or.inr ⟨evs2, List.mem_cons_of_mem _ hm, hkv⟩

theorem mem_collect_my_events (sources : List (List RawEvent))
    (kv : String × CalendarEvent) (h : kv ∈ collect_my_events sources) :
    ∃ evs ∈ sources, ∃ r ∈ evs, hasFogSub (r.description.getD "") = false
      ∧ kv.2 = create_calender_event_object r false ∧ kv.1 = kv.2.id := by
  rw [collect_my_events] at h
  rcases mem_cme_fold sources kv [] h with h2 | h2
  · simp at h2
  · rcases h2 with ⟨evs, hevs, hkv⟩
    rw [gce_false_eq] at hkv
    rcases mem_collectD _ _ _ _ hkv with ⟨r, hr, hc, he, hk⟩
    refine ⟨evs, hevs, r, hr, ?_, he, hk⟩
    simpa using hc

/-! ### Simple facts about normalization payloads -/

theorem create_false_summary (r : RawEvent) :
    (create_calender_event_object r false).summary = none := rfl

theorem create_false_description (r : RawEvent) :
    (create_calender_event_object r false).description = none := rfl

theorem create_true_summary (r : RawEvent) :
    (create_calender_event_object r true).summary = some r.summary := rfl

theorem create_true_description (r : RawEvent) :
    (create_calender_event_object r true).description
      = some (r.description.getD "") := rfl

theorem create_originalID (r : RawEvent) (keep : Bool) :
    (create_calender_event_object r keep).originalID = some r.id := rfl

theorem create_start (r : RawEvent) (keep : Bool) :
    (create_calender_event_object r keep).start = ⟨r.start.date, r.start.dateTime⟩ := rfl

theorem create_end (r : RawEvent) (keep : Bool) :
    (create_calender_event_object r keep).end_ = ⟨r.end_.date, r.end_.dateTime⟩ := rfl

theorem raw_id_inj (l : List RawEvent) (hnd : (l.map RawEvent.id).Nodup)
    (r1 r2 : RawEvent) (h1 : r1 ∈ l) (h2 : r2 ∈ l) (hid : r1.id = r2.id) :
    r1 = r2 :=
  List.inj_on_of_nodup_map hnd h1 h2 hid

/-! ### Decomposing the two sync functions into their two loops -/

def fwdCU (my_events blockers : Dict) : List Action :=
  my_events.flatMap (fun kv =>
    match dlookup kv.1 blockers with
    | some blocker =>
        if CalendarEvent.eq kv.2 blocker then []
        else [update_blocker
          { kv.2 with
            description := some ("This is a blocker event created by fogTime.\nfogTimeID: "
                                  ++ kv.2.id) }
          blocker]
    | none =>
        [create_event
          { kv.2 with
            summary := some "FogTime Blocker",
            description := some ("This is a blocker event created by fogTime.\nfogTimeID: "
                                  ++ kv.2.id) }])

def fwdDel (my_events blockers : Dict) : List Action :=
  blockers.flatMap (fun kv =>
    if dlookup kv.1 my_events = none then [Action.delete kv.2.originalID] else [])

theorem sync_blockers_eq (my_events blockers : Dict) :
    sync_blockers my_events blockers
      = fwdCU my_events blockers ++ fwdDel my_events blockers := rfl

def revCU (source_events target_events : List RawEvent) : List Action :=
  (reverse_desired source_events).flatMap (fun kv =>
    match dlookup kv.1 (get_calendar_events target_events true) with
    | some o =>
        if CalendarEvent.eq kv.2 o then [] else [update_blocker kv.2 o]
    | none => [create_event kv.2])

def revDel (source_events target_events : List RawEvent) : List Action :=
  (get_calendar_events target_events true).flatMap (fun kv =>
    if dlookup kv.1 (reverse_desired source_events) = none
        && hasFogSub (kv.2.description.getD "")
    then [Action.delete kv.2.originalID] else [])

theorem sync_reverse_eq (source_events target_events : List RawEvent) :
    sync_reverse source_events target_events
      = revCU source_events target_events ++ revDel source_events target_events := rfl

theorem revCU_no_delete (source_events target_events : List RawEvent)
    (a : Action) (ha : a ∈ revCU source_events target_events) :
    ∀ pid, a ≠ Action.delete pid := by
  intro pid heq
  rcases List.mem_flatMap.mp ha with ⟨kv, _, hmem⟩
  cases hdl : dlookup kv.1 (get_calendar_events target_events true) with
  | some o =>
      rw [hdl] at hmem
      change a ∈ (if CalendarEvent.eq kv.2 o
        then ([] : List Action) else [update_blocker kv.2 o]) at hmem
      by_cases he : CalendarEvent.eq kv.2 o = true
      · rw [if_pos he] at hmem
        simp at hmem
      · rw [if_neg he] at hmem
        rcases List.mem_singleton.mp hmem with rfl
        simp [update_blocker] at heq
  | none =>
      rw [hdl] at hmem
      change a ∈ [create_event kv.2] at hmem
      rcases List.mem_singleton.mp hmem with rfl
      simp [create_event] at heq

/-! ### Fixture records for concrete checks -/

def demoTagged : RawEvent :=
  { id := "p1",
    summary := "Dentist",
    description := some "hello\nfogTimeID: abc",
    start := ⟨some "2025-01-01", none⟩,
    end_ := ⟨some "2025-01-02", none⟩ }

def demoPlain : RawEvent :=
  { id := "p2",
    summary := "Lunch",
    description := some "plain text",
    start := ⟨none, some "2025-01-03T10:00:00+01:00"⟩,
    end_ := ⟨none, some "2025-01-03T11:00:00+01:00"⟩ }

def demoMid : RawEvent :=
  { id := "p3",
    summary := "Gym",
    description := some "fogTimeID: x\nmore text",
    start := ⟨some "2025-02-01", none⟩,
    end_ := ⟨some "2025-02-02", none⟩ }

/-! ### Claim C2 -/

def c2Left : CalendarEvent :=
  { id := "a",
    start := ⟨some "2025-01-01", none⟩,
    end_ := ⟨some "2025-01-02", none⟩,
    originalID := some "p1",
    summary := some "S",
    description := some "D" }

def c2Right : CalendarEvent :=
  { id := "b",
    start := ⟨some "2025-01-01", none⟩,
    end_ := ⟨some "2025-01-02", none⟩,
    originalID := some "p2",
    summary := some "S",
    description := some "D" }

/-- Claim C2, counterexample: two events agreeing on start, end,
summary and description but with different canonical ids compare
unequal, so `__eq__` is not decided by the four payload fields alone. -/
theorem c2_eq_uses_canonical_id_counterexample :
    c2Left.start = c2Right.start ∧ c2Left.end_ = c2Right.end_
      ∧ c2Left.summary = c2Right.summary
      ∧ c2Left.description = c2Right.description
      ∧ CalendarEvent.eq c2Left c2Right = false := by decide

/-- Claim C2, amended: structural equality is decided by
`(id, start, end, summary, description)` — the canonical id does
participate — while `originalID` (the provider id) never influences the
result. -/
theorem c2_eq_components (a b : CalendarEvent) (o1 o2 : Option String) :
    (CalendarEvent.eq a b = true
      ↔ a.id = b.id ∧ a.start = b.start ∧ a.end_ = b.end_
        ∧ a.summary = b.summary ∧ a.description = b.description)
    ∧ CalendarEvent.eq { a with originalID := o1 } { b with originalID := o2 }
        = CalendarEvent.eq a b := by
  constructor
  · simp [CalendarEvent.eq]
  · rfl

/-! ### Claim C6 -/

/-- Claim C6: tag round-trip.  For any canonical id `x` free of
newlines, appending the trailing line `fogTimeID: x` to any description
`d` (the forward phase uses the fixed explanatory line for `d`, the
reverse phase the pre-existing description) decodes back to exactly
`x`. -/
theorem c6_tag_roundtrip (d x : String) (hx : noNl x = true) :
    decodeTag (d ++ "\nfogTimeID: " ++ x) = some x :=
  decode_roundtrip d x hx

theorem c6_tag_roundtrip_witness :
    noNl "a1" = true
      ∧ decodeTag ("This is a blocker event created by fogTime." ++ "\nfogTimeID: " ++ "a1")
          = some "a1" :=
  ⟨by decide, c6_tag_roundtrip "This is a blocker event created by fogTime." "a1" (by decide)⟩

/-! ### Claim C8 -/

/-- Claim C8: filter correctness.  In a `keep_info = false` collection
every returned entry originates from a raw record without the
`"fogTimeID"` substring, and (given distinct store ids) no entry is the
normalization of a record carrying a valid tag — such a record is
excluded entirely. -/
theorem c8_filter_excludes_tagged (events : List RawEvent) (r : RawEvent)
    (t : String) (hr : r ∈ events)
    (hdec : decodeTag (r.description.getD "") = some t)
    (hnd : (events.map RawEvent.id).Nodup) :
    ∀ kv ∈ get_calendar_events events false,
      (∃ r2 ∈ events, hasFogSub (r2.description.getD "") = false
        ∧ kv.2 = create_calender_event_object r2 false ∧ kv.1 = kv.2.id)
      ∧ kv.2 ≠ create_calender_event_object r false := by
  intro kv hkv
  rw [gce_false_eq] at hkv
  rcases mem_collectD _ _ _ _ hkv with ⟨r2, hr2, hc, he, hk⟩
  have hc2 : hasFogSub (r2.description.getD "") = false := by simpa using hc
  refine ⟨⟨r2, hr2, hc2, he, hk⟩, ?_⟩
  intro heq
  have horig : (create_calender_event_object r2 false).originalID
      = (create_calender_event_object r false).originalID := by
    rw [← he, heq]
  rw [create_originalID, create_originalID, Option.some.injEq] at horig
  have : r2 = r := raw_id_inj events hnd r2 r hr2 hr horig
  subst this
  rw [hasFogSub_of_decodeTag _ _ hdec] at hc2
  cases hc2

theorem c8_filter_excludes_tagged_witness :
    demoTagged ∈ [demoTagged, demoPlain]
      ∧ decodeTag (demoTagged.description.getD "") = some "abc"
      ∧ (([demoTagged, demoPlain].map RawEvent.id).Nodup)
      ∧ (("p2", create_calender_event_object demoPlain false)
            ∈ get_calendar_events [demoTagged, demoPlain] false)
      ∧ ((∃ r2 ∈ [demoTagged, demoPlain],
            hasFogSub (r2.description.getD "") = false
            ∧ (("p2", create_calender_event_object demoPlain false) :
                String × CalendarEvent).2 = create_calender_event_object r2 false
            ∧ (("p2", create_calender_event_object demoPlain false) :
                String × CalendarEvent).1
              = (("p2", create_calender_event_object demoPlain false) :
                String × CalendarEvent).2.id)
          ∧ (("p2", create_calender_event_object demoPlain false) :
              String × CalendarEvent).2 ≠ create_calender_event_object demoTagged false) :=
  ⟨by decide, by decide, by decide, by decide,
   c8_filter_excludes_tagged [demoTagged, demoPlain] demoTagged "abc"
     (by decide) (by decide) (by decide)
     ("p2", create_calender_event_object demoPlain false) (by decide)⟩

/-! ### Claim C10 -/

/-- Claim C10: the `keep_info = false` filter tests for the substring
`"fogTimeID"` anywhere, which is strictly broader than the decode rule:
every decodable description passes the substring test, a record whose
description contains the substring is excluded from the collection even
when the tag decode fails, and a record whose decode fails normalizes
with `canonical_id = provider_id`. -/
theorem c10_filter_broader_than_decode :
    (∀ s t, decodeTag s = some t → hasFogSub s = true)
    ∧ (∀ (events : List RawEvent) (r : RawEvent), r ∈ events →
        hasFogSub (r.description.getD "") = true →
        ∀ kv ∈ get_calendar_events events false,
          ∃ r2 ∈ events, hasFogSub (r2.description.getD "") = false
            ∧ kv.2 = create_calender_event_object r2 false ∧ kv.1 = kv.2.id)
    ∧ (∀ r : RawEvent, decodeTag (r.description.getD "") = none →
        (create_calender_event_object r false).id = r.id) := by
  refine ⟨hasFogSub_of_decodeTag, ?_, ?_⟩
  · intro events r _ _ kv hkv
    rw [gce_false_eq] at hkv
    rcases mem_collectD _ _ _ _ hkv with ⟨r2, hr2, hc, he, hk⟩
    exact ⟨r2, hr2, by simpa using hc, he, hk⟩
  · intro r hdec
    rw [create_id, canonOf, hdec]

theorem c10_filter_broader_than_decode_witness :
    (decodeTag "hello\nfogTimeID: x" = some "x" → hasFogSub "hello\nfogTimeID: x" = true)
      ∧ hasFogSub (demoMid.description.getD "") = true
      ∧ decodeTag (demoMid.description.getD "") = none
      ∧ (create_calender_event_object demoMid false).id = demoMid.id
      ∧ get_calendar_events [demoMid] false = [] :=
  ⟨c10_filter_broader_than_decode.1 "hello\nfogTimeID: x" "x",
   by decide, by decide,
   c10_filter_broader_than_decode.2.2 demoMid (by decide),
   by decide⟩

/-! ### Delete-action helpers shared by C4 and C9 -/

theorem fwd_delete_intro (my_events blockers : Dict) (kv : String × CalendarEvent)
    (hkv : kv ∈ blockers) (hnone : dlookup kv.1 my_events = none) :
    Action.delete kv.2.originalID ∈ sync_blockers my_events blockers := by
  rw [sync_blockers_eq]
  refine List.mem_append_right _ ?_
  refine List.mem_flatMap.mpr ⟨kv, hkv, ?_⟩
  rw [if_pos hnone]
  exact List.mem_singleton.mpr rfl

theorem rev_delete_intro (src tgt : List RawEvent) (kv : String × CalendarEvent)
    (hkv : kv ∈ get_calendar_events tgt true)
    (hnone : dlookup kv.1 (reverse_desired src) = none)
    (hfog : hasFogSub (kv.2.description.getD "") = true) :
    Action.delete kv.2.originalID ∈ sync_reverse src tgt := by
  rw [sync_reverse_eq]
  refine List.mem_append_right _ ?_
  refine List.mem_flatMap.mpr ⟨kv, hkv, ?_⟩
  have hcond : (decide (dlookup kv.1 (reverse_desired src) = none)
      && hasFogSub (kv.2.description.getD "")) = true := by
    simp [hnone, hfog]
  rw [if_pos hcond]
  exact List.mem_singleton.mpr rfl

theorem rev_delete_char (src tgt : List RawEvent) (a : Action)
    (ha : a ∈ sync_reverse src tgt) (pid : Option String)
    (hpid : a = Action.delete pid) :
    ∃ kv ∈ get_calendar_events tgt true,
      kv.2.originalID = pid ∧ hasFogSub (kv.2.description.getD "") = true
      ∧ dlookup kv.1 (reverse_desired src) = none := by
  rw [sync_reverse_eq] at ha
  rcases List.mem_append.mp ha with ha | ha
  · exact absurd hpid (revCU_no_delete _ _ a ha pid)
  · rcases List.mem_flatMap.mp ha with ⟨kv, hkv, hmem⟩
    by_cases hcond : (decide (dlookup kv.1 (reverse_desired src) = none)
        && hasFogSub (kv.2.description.getD "")) = true
    · rw [if_pos hcond] at hmem
      rcases List.mem_singleton.mp hmem with rfl
      cases hpid
      rcases Bool.and_eq_true_iff.mp hcond with ⟨h1, h2⟩
      exact ⟨kv, hkv, rfl, h2, of_decide_eq_true h1⟩
    · rw [if_neg hcond] at hmem
      simp at hmem

theorem rev_no_delete_untagged (src tgt : List RawEvent)
    (hnd : (tgt.map RawEvent.id).Nodup) (k : String) (e : CalendarEvent)
    (hdl : dlookup k (get_calendar_events tgt true) = some e)
    (hfog : hasFogSub (e.description.getD "") = false) :
    Action.delete e.originalID ∉ sync_reverse src tgt := by
  intro hin
  rcases rev_delete_char src tgt _ hin e.originalID rfl with
    ⟨kv, hkv, horig, hfogkv, _⟩
  have hmem1 := mem_collectD _ _ _ kv (by rwa [gce_true_eq] at hkv)
  rcases hmem1 with ⟨r, hrtgt, _, hval, _⟩
  have hdl2 : dlookup k (collectD (fun _ => true) true tgt) = some e := by
    rw [← gce_true_eq]; exact hdl
  have hmem2 := mem_collectD _ _ _ (k, e) (dlookup_mem _ _ _ hdl2)
  rcases hmem2 with ⟨r2, hr2tgt, _, hval2, _⟩
  have hval2b : e = create_calender_event_object r2 true := hval2
  have hid : r.id = r2.id := by
    have h1 : kv.2.originalID = some r.id := by rw [hval]; rfl
    have h2 : e.originalID = some r2.id := by rw [hval2b]; rfl
    rw [h1, h2] at horig
    exact Option.some.injEq _ _ ▸ horig
  have : r = r2 := raw_id_inj tgt hnd r r2 hrtgt hr2tgt hid
  subst this
  rw [hval, create_true_description] at hfogkv
  rw [hval2b, create_true_description] at hfog
  simp only [Option.getD_some] at hfogkv hfog
  rw [hfogkv] at hfog
  cases hfog

/-! ### Claim C9 -/

/-- Claim C9: the reverse phase never deletes an untagged record.
Every delete it issues targets a collected reverse-target record whose
description contains `"fogTimeID"` and whose canonical id is absent
from the reverse desired map; and (given distinct store ids) a
collected record without the substring is never the target of a
delete. -/
theorem c9_reverse_deletes_only_tagged (src tgt : List RawEvent) :
    (∀ a ∈ sync_reverse src tgt, ∀ pid, a = Action.delete pid →
      ∃ kv ∈ get_calendar_events tgt true,
        kv.2.originalID = pid ∧ hasFogSub (kv.2.description.getD "") = true
        ∧ dlookup kv.1 (reverse_desired src) = none)
    ∧ ((tgt.map RawEvent.id).Nodup →
      ∀ k e, dlookup k (get_calendar_events tgt true) = some e →
        hasFogSub (e.description.getD "") = false →
        Action.delete e.originalID ∉ sync_reverse src tgt) :=
  ⟨fun a ha pid hpid => rev_delete_char src tgt a ha pid hpid,
   fun hnd k e hdl hfog => rev_no_delete_untagged src tgt hnd k e hdl hfog⟩

def demoRevTagged : RawEvent :=
  { id := "M",
    summary := "A meeting",
    description := some "notes\nfogTimeID: X",
    start := ⟨some "2025-01-01", none⟩,
    end_ := ⟨some "2025-01-02", none⟩ }

theorem c9_reverse_deletes_only_tagged_witness :
    (Action.delete (some "M") ∈ sync_reverse [] [demoRevTagged]
      → ∃ kv ∈ get_calendar_events [demoRevTagged] true,
          kv.2.originalID = some "M"
          ∧ hasFogSub (kv.2.description.getD "") = true
          ∧ dlookup kv.1 (reverse_desired []) = none)
    ∧ (([demoPlain].map RawEvent.id).Nodup
        → Action.delete (create_calender_event_object demoPlain true).originalID
            ∉ sync_reverse [] [demoPlain]) :=
  ⟨fun h => (c9_reverse_deletes_only_tagged [] [demoRevTagged]).1 _ h (some "M") rfl,
   fun hnd => (c9_reverse_deletes_only_tagged [] [demoPlain]).2 hnd "p2"
     (create_calender_event_object demoPlain true) (by decide) (by decide)⟩

/-! ### Claim C4 -/

/-- Claim C4, counterexample: an untagged reverse-target record whose
canonical id is in the existing map and not in the (empty) desired map
is not deleted — the reverse pass issues no action at all for it. -/
theorem c4_delete_counterexample :
    dlookup (canonOf demoPlain) (get_calendar_events [demoPlain] true) ≠ none
      ∧ dlookup (canonOf demoPlain) (reverse_desired []) = none
      ∧ sync_reverse [] [demoPlain] = [] := by decide

/-- Claim C4, amended: for a canonical id present in existing and
absent from desired, the forward phase always produces the delete; the
reverse phase produces it when the record's description contains
`"fogTimeID"`, and (given distinct store ids) never deletes a record
without it. -/
theorem c4_delete_actions :
    (∀ (my_events blockers : Dict) (kv : String × CalendarEvent),
        kv ∈ blockers → dlookup kv.1 my_events = none →
        Action.delete kv.2.originalID ∈ sync_blockers my_events blockers)
    ∧ (∀ (src tgt : List RawEvent) (kv : String × CalendarEvent),
        kv ∈ get_calendar_events tgt true →
        dlookup kv.1 (reverse_desired src) = none →
        hasFogSub (kv.2.description.getD "") = true →
        Action.delete kv.2.originalID ∈ sync_reverse src tgt)
    ∧ (∀ (src tgt : List RawEvent), (tgt.map RawEvent.id).Nodup →
        ∀ k e, dlookup k (get_calendar_events tgt true) = some e →
          dlookup k (reverse_desired src) = none →
          hasFogSub (e.description.getD "") = false →
          Action.delete e.originalID ∉ sync_reverse src tgt) :=
  ⟨fun my_events blockers kv hkv hnone => fwd_delete_intro my_events blockers kv hkv hnone,
   fun src tgt kv hkv hnone hfog => rev_delete_intro src tgt kv hkv hnone hfog,
   fun src tgt hnd k e hdl _ hfog => rev_no_delete_untagged src tgt hnd k e hdl hfog⟩

theorem c4_delete_actions_witness :
    Action.delete (create_calender_event_object demoRevTagged false).originalID
        ∈ sync_blockers [] (get_blockers [])
      ∨ Action.delete (create_calender_event_object demoRevTagged true).originalID
          ∈ sync_reverse [] [demoRevTagged] :=
  Or.inr (c4_delete_actions.2.1 [] [demoRevTagged]
    ("X", create_calender_event_object demoRevTagged true)
    (by decide) (by decide) (by decide))

/-! ### Claim C1 -/

/-- Claim C1, counterexample: a fetched target-calendar record whose
description carries a decodable loop-prevention tag does appear in the
reverse desired map (under its decoded canonical id), both before and
after the stamping loop. -/
theorem c1_tagged_record_in_reverse_desired :
    decodeTag (demoTagged.description.getD "") = some "abc"
      ∧ dlookup "abc" (get_not_blocker [demoTagged])
          = some (create_calender_event_object demoTagged true)
      ∧ dlookup "abc" (reverse_desired [demoTagged]) ≠ none := by decide

/-- Claim C1, amended: the reverse desired set excludes collected
records only by their summary being the placeholder label; tag presence
does not exclude anything because `get_not_blocker` collects with
`keep_infos = True`, which skips the tag filter.  Every entry kept has
a non-placeholder summary, and every collected entry with a
non-placeholder summary is kept. -/
theorem c1_reverse_desired_excludes_only_blockers (events : List RawEvent) :
    (∀ kv ∈ get_not_blocker events, kv.2.summary ≠ some "FogTime Blocker")
    ∧ (∀ k e, dlookup k (get_calendar_events events true) = some e →
        e.summary ≠ some "FogTime Blocker" →
        dlookup k (get_not_blocker events) = some e) := by
  constructor
  · intro kv hkv
    exact (mem_get_not_blocker events kv hkv).2
  · intro k e hdl hsum
    rw [dlookup_get_not_blocker, hdl]
    show (if e.summary ≠ some "FogTime Blocker" then some e else none) = some e
    rw [if_pos hsum]

theorem c1_reverse_desired_excludes_only_blockers_witness :
    ((create_calender_event_object demoTagged true).summary
        ≠ some "FogTime Blocker")
    ∧ dlookup "abc" (get_not_blocker [demoTagged])
        = some (create_calender_event_object demoTagged true) :=
  ⟨by decide,
   (c1_reverse_desired_excludes_only_blockers [demoTagged]).2 "abc"
     (create_calender_event_object demoTagged true) (by decide) (by decide)⟩

/-! ### Claim C3 -/

theorem truthy_some_iff (s : String) : truthy (some s) = true ↔ s ≠ "" := by
  simp [truthy]

theorem append_ne_empty_left (a b : String) (h : a.data ≠ []) : a ++ b ≠ "" := by
  intro he
  have hd := congrArg String.data he
  rw [String.data_append] at hd
  have : a.data = [] := (List.append_eq_nil.mp hd).1
  exact h this

theorem get_blockers_lookup (target : List RawEvent) (k : String)
    (b : CalendarEvent) (h : dlookup k (get_blockers target) = some b) :
    ∃ rb ∈ target, rb.summary = "FogTime Blocker" ∧ canonOf rb = k
      ∧ b = create_calender_event_object rb false := by
  rw [get_blockers_eq, dlookup_collectD] at h
  cases hls : lastStore (fun e => decide (e.summary = "FogTime Blocker")) k target with
  | none => rw [hls] at h; simp at h
  | some rb =>
      rw [hls] at h
      simp only [Option.map_some'] at h
      have hm := lastStore_mem _ _ _ _ hls
      exact ⟨rb, hm.1, of_decide_eq_true hm.2.1, hm.2.2,
        (Option.some.injEq _ _ ▸ h).symm⟩

/-- Claim C3: every blocker written by the forward phase carries the
placeholder summary and the explanatory line followed by the tag
carrying a desired canonical id.  A create sends exactly that payload;
an update patches a record that already carries the placeholder
summary, does not touch the summary (the key is omitted because the
desired event's summary is `None`), and overwrites the description, so
the patched record has the placeholder summary and the tagged
description. -/
theorem c3_forward_blocker_payload (sources : List (List RawEvent))
    (target : List RawEvent) :
    ∀ a ∈ sync_blockers (collect_my_events sources) (get_blockers target),
      (∀ body, a = Action.create body →
        body.summary = some "FogTime Blocker"
        ∧ ∃ k, dlookup k (collect_my_events sources) ≠ none
            ∧ body.description
              = some ("This is a blocker event created by fogTime.\nfogTimeID: " ++ k))
      ∧ (∀ pid body, a = Action.update pid body →
        ∃ k rb, rb ∈ target ∧ pid = some rb.id ∧ rb.summary = "FogTime Blocker"
          ∧ dlookup k (collect_my_events sources) ≠ none
          ∧ (applyPatch body rb).summary = "FogTime Blocker"
          ∧ (applyPatch body rb).description
              = some ("This is a blocker event created by fogTime.\nfogTimeID: " ++ k)) := by
  intro a ha
  rw [sync_blockers_eq] at ha
  rcases List.mem_append.mp ha with ha | ha
  · rcases List.mem_flatMap.mp ha with ⟨kv, hkv, hmem⟩
    rcases mem_collect_my_events sources kv hkv with ⟨_, _, r, _, _, hval, hkey⟩
    have hsumnone : kv.2.summary = none := by rw [hval]; rfl
    have hlk : dlookup kv.2.id (collect_my_events sources) ≠ none := by
      rw [← hkey]
      exact dlookup_ne_none_of_mem kv _ hkv
    have hdne : ("This is a blocker event created by fogTime.\nfogTimeID: "
        ++ kv.2.id : String) ≠ "" :=
      append_ne_empty_left _ _ (by decide)
    have hdt : truthy (some ("This is a blocker event created by fogTime.\nfogTimeID: "
        ++ kv.2.id)) = true := (truthy_some_iff _).mpr hdne
    cases hdl : dlookup kv.1 (get_blockers target) with
    | some b =>
        rw [hdl] at hmem
        change a ∈ (if CalendarEvent.eq kv.2 b then ([] : List Action)
          else [update_blocker
            { kv.2 with
              description := some ("This is a blocker event created by fogTime.\nfogTimeID: "
                                    ++ kv.2.id) } b]) at hmem
        by_cases he : CalendarEvent.eq kv.2 b = true
        · rw [if_pos he] at hmem
          simp at hmem
        · rw [if_neg he] at hmem
          rcases List.mem_singleton.mp hmem with rfl
          constructor
          · intro body hbody
            simp [update_blocker] at hbody
          · intro pid body hbody
            rw [update_blocker] at hbody
            injection hbody with hpid hbodyeq
            subst hpid
            subst hbodyeq
            rcases get_blockers_lookup target kv.1 b hdl with
              ⟨rb, hrb, hrbsum, _, hbval⟩
            refine ⟨kv.2.id, rb, hrb, ?_, hrbsum, hlk, ?_, ?_⟩
            · rw [hbval, create_originalID]
            · simp [applyPatch, hsumnone, truthy, hrbsum]
            · simp [applyPatch, hdt]
    | none =>
        rw [hdl] at hmem
        change a ∈ [create_event
          { kv.2 with
            summary := some "FogTime Blocker",
            description := some ("This is a blocker event created by fogTime.\nfogTimeID: "
                                  ++ kv.2.id) }] at hmem
        rcases List.mem_singleton.mp hmem with rfl
        constructor
        · intro body hbody
          rw [create_event] at hbody
          injection hbody with hbodyeq
          subst hbodyeq
          exact ⟨rfl, kv.2.id, hlk, rfl⟩
        · intro pid body hbody
          simp [create_event] at hbody
  · rcases List.mem_flatMap.mp ha with ⟨kv, _, hmem⟩
    by_cases hc : dlookup kv.1 (collect_my_events sources) = none
    · rw [if_pos hc] at hmem
      rcases List.mem_singleton.mp hmem with rfl
      exact ⟨fun body hbody => by simp at hbody,
             fun pid body hbody => by simp at hbody⟩
    · rw [if_neg hc] at hmem
      simp at hmem

def demoSrc : RawEvent :=
  { id := "a1",
    summary := "Standup",
    description := none,
    start := ⟨some "2025-01-01", none⟩,
    end_ := ⟨some "2025-01-02", none⟩ }

def c3DemoAct : Action :=
  Action.create
    { summary := some "FogTime Blocker",
      description := some "This is a blocker event created by fogTime.\nfogTimeID: a1",
      start := some ⟨some "2025-01-01", none⟩,
      end_ := some ⟨some "2025-01-02", none⟩ }

theorem c3_forward_blocker_payload_witness :
    c3DemoAct ∈ sync_blockers (collect_my_events [[demoSrc]]) (get_blockers [])
    ∧ ((∀ body, c3DemoAct = Action.create body →
          body.summary = some "FogTime Blocker"
          ∧ ∃ k, dlookup k (collect_my_events [[demoSrc]]) ≠ none
              ∧ body.description
                = some ("This is a blocker event created by fogTime.\nfogTimeID: " ++ k))
        ∧ (∀ pid body, c3DemoAct = Action.update pid body →
          ∃ k rb, rb ∈ ([] : List RawEvent) ∧ pid = some rb.id
            ∧ rb.summary = "FogTime Blocker"
            ∧ dlookup k (collect_my_events [[demoSrc]]) ≠ none
            ∧ (applyPatch body rb).summary = "FogTime Blocker"
            ∧ (applyPatch body rb).description
                = some ("This is a blocker event created by fogTime.\nfogTimeID: " ++ k))) :=
  ⟨by decide, c3_forward_blocker_payload [[demoSrc]] [] c3DemoAct (by decide)⟩

/-! ### Claim C7 -/

/-- Claim C7: failure containment at the cycle boundary.  The loop is
alive after every iteration regardless of cycle outcomes, the fixed
delay runs exactly once per iteration on success and failure alike, a
failing cycle contributes exactly its logged error line, a successful
cycle contributes none, and an exception in the very first collaborator
read of the cycle propagates uncaught to the cycle boundary. -/
theorem c7_cycle_failure_containment (env : Nat → CycleEnv) (n : Nat) :
    (main_loop env n).alive = true
    ∧ (main_loop env n).sleeps = n
    ∧ (∀ e, run_cycle (env n) = Except.error e →
        (main_loop env (n + 1)).logs
          = (main_loop env n).logs
            ++ ["An error occurred, retry next iteration: " ++ e])
    ∧ (∀ v, run_cycle (env n) = Except.ok v →
        (main_loop env (n + 1)).logs = (main_loop env n).logs)
    ∧ (∀ e, (env n).fetch "primary" = Except.error e →
        run_cycle (env n) = Except.error e) := by
  refine ⟨?_, ?_, ?_, ?_, ?_⟩
  · induction n with
    | zero => rfl
    | succ m ih =>
        show (main_loop env (m + 1)).alive = true
        rw [main_loop]
        cases run_cycle (env m) with
        | ok v => rfl
        | error e => rfl
  · induction n with
    | zero => rfl
    | succ m ih =>
        show (main_loop env (m + 1)).sleeps = m + 1
        rw [main_loop]
        cases run_cycle (env m) with
        | ok v => show (main_loop env m).sleeps + 1 = m + 1; rw [ih]
        | error e => show (main_loop env m).sleeps + 1 = m + 1; rw [ih]
  · intro e he
    rw [main_loop, he]
  · intro v hv
    rw [main_loop, hv]
  · intro e he
    rw [run_cycle, MY_CALENDARS]
    simp only [List.foldlM_cons, he]
    rfl

def envFail : Nat → CycleEnv := fun _ => ⟨fun _ => Except.error "boom"⟩

theorem c7_cycle_failure_containment_witness :
    run_cycle (envFail 0) = Except.error "boom"
    ∧ (main_loop envFail 0).alive = true
    ∧ (main_loop envFail 0).sleeps = 0
    ∧ (main_loop envFail 1).logs
        = (main_loop envFail 0).logs
          ++ ["An error occurred, retry next iteration: " ++ "boom"] := by
  have h := c7_cycle_failure_containment envFail 0
  have hp : (envFail 0).fetch "primary" = Except.error "boom" := rfl
  have hrc := h.2.2.2.2 "boom" hp
  exact ⟨hrc, h.1, h.2.1, h.2.2.1 "boom" hrc⟩

/-! ### Valid timestamps and the write/read round-trip -/

/-- The read contract guarantees `date` XOR `dateTime`; nonemptiness
makes the populated variant truthy in Python. -/
def validTS (t : CalendarTimeStamp) : Bool :=
  match t.date, t.date_time with
  | some d, none => !(d == "")
  | none, some x => !(x == "")
  | _, _ => false

/-- Reading a stored time bound back into a `CalendarTimeStamp`. -/
def readTS (g : GTime) : CalendarTimeStamp := ⟨g.date, g.dateTime⟩

theorem gd_roundtrip (t : CalendarTimeStamp) (h : validTS t = true) :
    ∃ g, t.get_google_dict = some g ∧ readTS g = t := by
  rcases t with ⟨d, dt⟩
  cases d with
  | some s =>
      cases dt with
      | some s2 => simp [validTS] at h
      | none =>
          refine ⟨⟨some s, none⟩, ?_, rfl⟩
          have hs : s ≠ "" := by simpa [validTS] using h
          simp [CalendarTimeStamp.get_google_dict, truthy, hs]
  | none =>
      cases dt with
      | some s2 =>
          refine ⟨⟨none, some s2⟩, ?_, rfl⟩
          have hs : s2 ≠ "" := by simpa [validTS] using h
          simp [CalendarTimeStamp.get_google_dict, truthy, hs]
      | none => simp [validTS] at h

/-! ### Store-level delta lemmas for the idempotence proof -/

theorem applyPatch_id (b : PatchBody) (r : RawEvent) : (applyPatch b r).id = r.id := rfl

theorem patchList_split (u v : List RawEvent) (r : RawEvent) (b : PatchBody)
    (hu : ∀ x ∈ u, x.id ≠ r.id) :
    patchList r.id b (u ++ r :: v) = u ++ applyPatch b r :: v := by
  induction u with
  | nil => simp [patchList]
  | cons x u ih =>
      rw [List.cons_append, patchList,
        if_neg (hu x (List.mem_cons_self _ _)), List.cons_append,
        ih (fun y hy => hu y (List.mem_cons_of_mem _ hy))]

theorem deleteList_split (u v : List RawEvent) (r : RawEvent)
    (hu : ∀ x ∈ u, x.id ≠ r.id) :
    deleteList r.id (u ++ r :: v) = u ++ v := by
  induction u with
  | nil => simp [deleteList]
  | cons x u ih =>
      rw [List.cons_append, deleteList,
        if_neg (hu x (List.mem_cons_self _ _)), List.cons_append,
        ih (fun y hy => hu y (List.mem_cons_of_mem _ hy))]

theorem ids_front (u v : List RawEvent) (r : RawEvent)
    (hnd : ((u ++ r :: v).map RawEvent.id).Nodup) :
    ∀ x ∈ u, x.id ≠ r.id := by
  intro x hx he
  rw [List.map_append, List.map_cons] at hnd
  rcases List.nodup_append.mp hnd with ⟨_, _, hdisj⟩
  exact hdisj (List.mem_map_of_mem _ hx) (he ▸ List.mem_cons_self _ _)

theorem lastStore_cons_other (c : RawEvent → Bool) (k : String) (x : RawEvent)
    (v : List RawEvent) (hx : ¬(c x = true ∧ canonOf x = k)) :
    lastStore c k (x :: v) = lastStore c k v := by
  rw [lastStore]
  cases h : lastStore c k v with
  | some y => simp
  | none => simp [hx]

theorem lastStore_middle_other (c : RawEvent → Bool) (k : String)
    (u v : List RawEvent) (x : RawEvent) (hx : ¬(c x = true ∧ canonOf x = k)) :
    lastStore c k (u ++ x :: v) = lastStore c k (u ++ v) := by
  rw [lastStore_append, lastStore_cons_other c k x v hx, lastStore_append]

theorem lastStore_middle_hit (c : RawEvent → Bool) (k : String)
    (u v : List RawEvent) (x : RawEvent) (hx : c x = true ∧ canonOf x = k)
    (hv : lastStore c k v = none) :
    lastStore c k (u ++ x :: v) = some x := by
  rw [lastStore_append, lastStore, hv]
  simp [hx]

theorem lastStore_snoc (c : RawEvent → Bool) (k : String) (st : List RawEvent)
    (x : RawEvent) :
    lastStore c k (st ++ [x])
      = if c x = true ∧ canonOf x = k then some x else lastStore c k st := by
  rw [lastStore_append]
  by_cases hx : c x = true ∧ canonOf x = k
  · rw [if_pos hx]
    show (match lastStore c k [x] with
          | some y => some y
          | none => lastStore c k st) = some x
    rw [lastStore]
    simp [lastStore, hx]
  · rw [if_neg hx]
    show (match lastStore c k [x] with
          | some y => some y
          | none => lastStore c k st) = lastStore c k st
    rw [lastStore]
    simp [lastStore, hx]

theorem canon_nodup_split (c : RawEvent → Bool) (u v : List RawEvent)
    (x : RawEvent)
    (hcan : (((u ++ x :: v).filter c).map canonOf).Nodup)
    (hx : c x = true) :
    (∀ r ∈ u, ¬(c r = true ∧ canonOf r = canonOf x))
    ∧ (∀ r ∈ v, ¬(c r = true ∧ canonOf r = canonOf x)) := by
  rw [List.filter_append, List.filter_cons_of_pos hx, List.map_append,
    List.map_cons] at hcan
  rcases List.nodup_append.mp hcan with ⟨_, hcons, hdisj⟩
  constructor
  · rintro r hr ⟨hcr, hcanr⟩
    refine hdisj ?_ (List.mem_cons_self _ _)
    rw [← hcanr]
    exact List.mem_map_of_mem _ (List.mem_filter.mpr ⟨hr, hcr⟩)
  · rintro r hr ⟨hcr, hcanr⟩
    rcases List.nodup_cons.mp hcons with ⟨hnotin, _⟩
    refine hnotin ?_
    rw [← hcanr]
    exact List.mem_map_of_mem _ (List.mem_filter.mpr ⟨hr, hcr⟩)

theorem flatMap_nil_of {α β : Type} (l : List α) (f : α → List β)
    (h : ∀ x ∈ l, f x = []) : l.flatMap f = [] := by
  induction l with
  | nil => rfl
  | cons a rest ih =>
      rw [List.flatMap_cons, h a (List.mem_cons_self _ _),
        ih (fun x hx => h x (List.mem_cons_of_mem _ hx))]
      rfl

theorem applyActions_nil (fresh : Nat → String) (st : List RawEvent) (n : Nat) :
    applyActions fresh st n [] = (st, n) := rfl

theorem applyActions_cons (fresh : Nat → String) (st : List RawEvent) (n : Nat)
    (a : Action) (acts : List Action) :
    applyActions fresh st n (a :: acts)
      = applyActions fresh (applyAction fresh (st, n) a).1
          (applyAction fresh (st, n) a).2 acts := by
  rw [applyActions, List.foldl_cons]
  rfl

theorem applyActions_append (fresh : Nat → String) (st : List RawEvent) (n : Nat)
    (xs ys : List Action) :
    applyActions fresh st n (xs ++ ys)
      = applyActions fresh (applyActions fresh st n xs).1
          (applyActions fresh st n xs).2 ys := by
  rw [applyActions, List.foldl_append]
  rfl

theorem canonOf_noNl (r : RawEvent) (h : noNl r.id = true) :
    noNl (canonOf r) = true := by
  rw [canonOf]
  cases hdec : decodeTag (r.description.getD "") with
  | none => exact h
  | some g =>
      rw [decodeTag] at hdec
      cases hscan : scanTag (stripNl (r.description.getD "").data) with
      | none => rw [hscan] at hdec; simp at hdec
      | some l =>
          rw [hscan] at hdec
          simp only [Option.map_some'] at hdec
          cases hdec
          have := scanTag_noNl _ _ hscan
          simp [noNl, this]

theorem str3_ne_empty (a x : String) :
    a ++ "\nfogTimeID: " ++ x ≠ "" := by
  intro he
  have hd := congrArg String.data he
  rw [String.data_append, String.data_append] at hd
  have h1 : (a.data ++ ("\nfogTimeID: " : String).data) = [] :=
    (List.append_eq_nil.mp hd).1
  have h2 : ("\nfogTimeID: " : String).data = [] := (List.append_eq_nil.mp h1).2
  simp at h2

/-! ### Scaffolding for the idempotence proofs -/

def isFTBc : RawEvent → Bool := fun r => decide (r.summary = "FogTime Blocker")

theorem get_blockers_eq2 (events : List RawEvent) :
    get_blockers events = collectD isFTBc false events :=
  get_blockers_eq events

/-- The patch body built by `update_blocker`. -/
def updateBody (my_event : CalendarEvent) : PatchBody :=
  ⟨my_event.start.get_google_dict, my_event.end_.get_google_dict,
   if truthy my_event.summary then my_event.summary else none,
   if truthy my_event.description then my_event.description else none⟩

theorem update_blocker_eq (my_event blocker : CalendarEvent) :
    update_blocker my_event blocker
      = Action.update blocker.originalID (updateBody my_event) := rfl

/-- The insert body built by `create_event`. -/
def createBody (blocker : CalendarEvent) : EventBody :=
  ⟨blocker.summary, blocker.description,
   blocker.start.get_google_dict, blocker.end_.get_google_dict⟩

theorem create_event_eq (blocker : CalendarEvent) :
    create_event blocker = Action.create (createBody blocker) := rfl

theorem applyAction_update (fresh : Nat → String) (st : List RawEvent) (n : Nat)
    (my_event blocker : CalendarEvent) (rid : String)
    (h : blocker.originalID = some rid) :
    applyAction fresh (st, n) (update_blocker my_event blocker)
      = (patchList rid (updateBody my_event) st, n) := by
  rw [update_blocker_eq, h]
  rfl

theorem applyAction_create (fresh : Nat → String) (st : List RawEvent) (n : Nat)
    (blocker : CalendarEvent) :
    applyAction fresh (st, n) (create_event blocker)
      = (st ++ [newRawEvent (fresh n) (createBody blocker)], n + 1) := rfl

theorem expl_split (x : String) :
    ("This is a blocker event created by fogTime.\nfogTimeID: " ++ x : String)
      = "This is a blocker event created by fogTime." ++ "\nfogTimeID: " ++ x := by
  apply String.ext
  rw [String.data_append, String.data_append, String.data_append]
  have h : ("This is a blocker event created by fogTime.\nfogTimeID: " : String).data
      = ("This is a blocker event created by fogTime." : String).data
        ++ ("\nfogTimeID: " : String).data := by decide
  rw [h, List.append_assoc]

/-- Well-formedness of a forward desired entry, exactly what a
`keep_infos = False` collection guarantees plus the read-contract
hypotheses (valid timestamps, newline-free ids). -/
def fwdWF (kv : String × CalendarEvent) : Prop :=
  kv.2.id = kv.1 ∧ kv.2.summary = none ∧ kv.2.description = none
  ∧ validTS kv.2.start = true ∧ validTS kv.2.end_ = true ∧ noNl kv.2.id = true

/-- The relation between a blockers-dict entry computed from the
original store and the current store state. -/
def blockerSync (B : Dict) (st : List RawEvent) (k : String) : Prop :=
  match dlookup k B with
  | some b => ∃ rb, lastStore isFTBc k st = some rb
      ∧ create_calender_event_object rb false = b
  | none => lastStore isFTBc k st = none

theorem blockerSync_some (B : Dict) (st : List RawEvent) (k : String)
    (b : CalendarEvent) (h : blockerSync B st k) (hdl : dlookup k B = some b) :
    ∃ rb, lastStore isFTBc k st = some rb
      ∧ create_calender_event_object rb false = b := by
  rw [blockerSync, hdl] at h
  exact h

theorem blockerSync_none (B : Dict) (st : List RawEvent) (k : String)
    (h : blockerSync B st k) (hdl : dlookup k B = none) :
    lastStore isFTBc k st = none := by
  rw [blockerSync, hdl] at h
  exact h

theorem fwd_record_props (kv : String × CalendarEvent) (r2 : RawEvent)
    (hwf : fwdWF kv)
    (hsum : r2.summary = "FogTime Blocker")
    (hdesc : r2.description
      = some ("This is a blocker event created by fogTime.\nfogTimeID: " ++ kv.2.id))
    (hstart : readTS r2.start = kv.2.start)
    (hend : readTS r2.end_ = kv.2.end_) :
    isFTBc r2 = true ∧ canonOf r2 = kv.1
    ∧ CalendarEvent.eq kv.2 (create_calender_event_object r2 false) = true := by
  obtain ⟨hid, hsumn, hdescn, _, _, hnl⟩ := hwf
  have hdec : decodeTag (r2.description.getD "") = some kv.2.id := by
    rw [hdesc]
    simp only [Option.getD_some]
    rw [expl_split]
    exact decode_roundtrip _ _ hnl
  have hcan : canonOf r2 = kv.1 := by
    rw [canonOf, hdec]
    exact hid
  refine ⟨by simp [isFTBc, hsum], hcan, ?_⟩
  rw [CalendarEvent.eq]
  apply decide_eq_true
  refine ⟨?_, ?_, ?_, ?_, ?_⟩
  · rw [create_id, hcan, hid]
  · rw [create_start]
    exact hstart.symm
  · rw [create_end]
    exact hend.symm
  · rw [create_false_summary, hsumn]
  · rw [create_false_description, hdescn]

theorem fwd_phase1 (B : Dict) (fresh : Nat → String) :
    ∀ (Dt : Dict) (st : List RawEvent) (n : Nat),
    (∀ kv ∈ Dt, fwdWF kv) →
    (dkeys Dt).Nodup →
    (∀ kv ∈ Dt, blockerSync B st kv.1) →
    (st.map RawEvent.id).Nodup →
    ((st.filter isFTBc).map canonOf).Nodup →
    (∀ i, n ≤ i → i < n + Dt.length → fresh i ∉ st.map RawEvent.id) →
    (∀ i j, n ≤ i → i < j → j < n + Dt.length → fresh i ≠ fresh j) →
    (((applyActions fresh st n (fwdCU Dt B)).1.map RawEvent.id).Nodup)
    ∧ ((((applyActions fresh st n (fwdCU Dt B)).1.filter isFTBc).map canonOf).Nodup)
    ∧ (∀ k, k ∉ dkeys Dt →
        lastStore isFTBc k (applyActions fresh st n (fwdCU Dt B)).1
          = lastStore isFTBc k st)
    ∧ (∀ kv ∈ Dt, ∃ b2,
        dlookup kv.1 (get_blockers (applyActions fresh st n (fwdCU Dt B)).1) = some b2
        ∧ CalendarEvent.eq kv.2 b2 = true) := by
  intro Dt
  induction Dt with
  | nil =>
      intro st n _ _ _ hid hcan _ _
      refine ⟨hid, hcan, fun k _ => ?_, fun kv hkv => absurd hkv (by simp)⟩
      rw [fwdCU]
      simp only [List.flatMap_nil]
      rfl
  | cons kv Dt' ih =>
      intro st n hwf hknd hact hid hcan hf1 hf2
      have hwfhd := hwf kv (List.mem_cons_self _ _)
      have hacthd := hact kv (List.mem_cons_self _ _)
      have hkhd : kv.1 ∉ dkeys Dt' := by
        simp only [dkeys, List.map_cons, List.nodup_cons] at hknd
        exact hknd.1
      have hknd' : (dkeys Dt').Nodup := by
        simp only [dkeys, List.map_cons, List.nodup_cons] at hknd
        exact hknd.2
      have hcu : fwdCU (kv :: Dt') B
          = (match dlookup kv.1 B with
             | some blocker =>
                 if CalendarEvent.eq kv.2 blocker then []
                 else [update_blocker
                   { kv.2 with
                     description := some ("This is a blocker event created by fogTime.\nfogTimeID: "
                                           ++ kv.2.id) }
                   blocker]
             | none =>
                 [create_event
                   { kv.2 with
                     summary := some "FogTime Blocker",
                     description := some ("This is a blocker event created by fogTime.\nfogTimeID: "
                                           ++ kv.2.id) }]) ++ fwdCU Dt' B := rfl
      -- the three branches produce a store st1 and counter n1 with the
      -- stated relationship to st
      cases hdl : dlookup kv.1 B with
      | some b =>
          rcases blockerSync_some B st kv.1 b hacthd hdl with ⟨rb, hls, hbeq⟩
          have hrbfacts := lastStore_mem _ _ _ _ hls
          have hrbmem : rb ∈ st := hrbfacts.1
          have hrbftb : rb.summary = "FogTime Blocker" :=
            of_decide_eq_true hrbfacts.2.1
          have hrbcan : canonOf rb = kv.1 := hrbfacts.2.2
          by_cases heq : CalendarEvent.eq kv.2 b = true
          · -- no-op branch: the store is unchanged
            have hstep : fwdCU (kv :: Dt') B = fwdCU Dt' B := by
              rw [hcu, hdl]
              show (if CalendarEvent.eq kv.2 b then ([] : List Action)
                else [update_blocker _ b]) ++ fwdCU Dt' B = fwdCU Dt' B
              rw [if_pos heq]
              rfl
            rw [hstep]
            have hih := ih st n (fun kv2 h2 => hwf kv2 (List.mem_cons_of_mem _ h2))
              hknd' (fun kv2 h2 => hact kv2 (List.mem_cons_of_mem _ h2)) hid hcan
              (fun i h1 h2 => hf1 i h1 (by simp only [List.length_cons] at *; omega))
              (fun i j h1 h2 h3 => hf2 i j h1 h2 (by simp only [List.length_cons] at *; omega))
            refine ⟨hih.1, hih.2.1, ?_, ?_⟩
            · intro k hk
              refine hih.2.2.1 k ?_
              intro hc
              exact hk (by
                simp only [dkeys, List.map_cons, List.mem_cons]
                exact Or.inr hc)
            · intro kv2 hkv2
              rcases List.mem_cons.mp hkv2 with rfl | hkv2
              · -- the head entry: unchanged store keeps the matching blocker
                have hpres := hih.2.2.1 kv2.1 hkhd
                refine ⟨b, ?_, heq⟩
                rw [get_blockers_eq2, dlookup_collectD, hpres, hls]
                simp only [Option.map_some']
                rw [hbeq]
              · exact hih.2.2.2 kv2 hkv2
          · -- update branch
            have horig : b.originalID = some rb.id := by
              rw [← hbeq, create_originalID]
            have hstep : applyActions fresh st n (fwdCU (kv :: Dt') B)
                = applyActions fresh
                    (patchList rb.id (updateBody
                      { kv.2 with
                        description := some ("This is a blocker event created by fogTime.\nfogTimeID: "
                                              ++ kv.2.id) }) st) n (fwdCU Dt' B) := by
              rw [hcu, hdl]
              show applyActions fresh st n
                ((if CalendarEvent.eq kv.2 b then ([] : List Action)
                  else [update_blocker _ b]) ++ fwdCU Dt' B) = _
              rw [if_neg heq, List.cons_append, List.nil_append, applyActions_cons,
                applyAction_update fresh st n _ b rb.id horig]
            obtain ⟨u, v, hsplit⟩ := List.append_of_mem hrbmem
            have hufront : ∀ x ∈ u, x.id ≠ rb.id := by
              rw [hsplit] at hid
              exact ids_front u v rb hid
            have hpatch : patchList rb.id (updateBody
                { kv.2 with
                  description := some ("This is a blocker event created by fogTime.\nfogTimeID: "
                                        ++ kv.2.id) }) st
              = u ++ applyPatch (updateBody
                  { kv.2 with
                    description := some ("This is a blocker event created by fogTime.\nfogTimeID: "
                                          ++ kv.2.id) }) rb :: v := by
              rw [hsplit]
              exact patchList_split u v rb _ hufront
            -- facts about the patched record
            obtain ⟨hid0, hsumn, hdescn, hvs, hve, hnl⟩ := hwfhd
            obtain ⟨g1, hg1, hg1r⟩ := gd_roundtrip kv.2.start hvs
            obtain ⟨g2, hg2, hg2r⟩ := gd_roundtrip kv.2.end_ hve
            have hdne : ("This is a blocker event created by fogTime.\nfogTimeID: "
                ++ kv.2.id : String) ≠ "" := append_ne_empty_left _ _ (by decide)
            have hdt : truthy (some ("This is a blocker event created by fogTime.\nfogTimeID: "
                ++ kv.2.id)) = true := (truthy_some_iff _).mpr hdne
            have hr2sum : (applyPatch (updateBody
                { kv.2 with
                  description := some ("This is a blocker event created by fogTime.\nfogTimeID: "
                                        ++ kv.2.id) }) rb).summary = "FogTime Blocker" := by
              simp [applyPatch, updateBody, truthy, hsumn, hrbftb]
            have hr2desc : (applyPatch (updateBody
                { kv.2 with
                  description := some ("This is a blocker event created by fogTime.\nfogTimeID: "
                                        ++ kv.2.id) }) rb).description
                = some ("This is a blocker event created by fogTime.\nfogTimeID: "
                    ++ kv.2.id) := by
              simp [applyPatch, updateBody, hdt]
            have hr2start : readTS (applyPatch (updateBody
                { kv.2 with
                  description := some ("This is a blocker event created by fogTime.\nfogTimeID: "
                                        ++ kv.2.id) }) rb).start = kv.2.start := by
              simp only [applyPatch, updateBody]
              show readTS ((CalendarTimeStamp.get_google_dict kv.2.start).getD rb.start) = _
              rw [hg1]
              simpa using hg1r
            have hr2end : readTS (applyPatch (updateBody
                { kv.2 with
                  description := some ("This is a blocker event created by fogTime.\nfogTimeID: "
                                        ++ kv.2.id) }) rb).end_ = kv.2.end_ := by
              simp only [applyPatch, updateBody]
              show readTS ((CalendarTimeStamp.get_google_dict kv.2.end_).getD rb.end_) = _
              rw [hg2]
              simpa using hg2r
            have hprops := fwd_record_props kv _ ⟨hid0, hsumn, hdescn, hvs, hve, hnl⟩
              hr2sum hr2desc hr2start hr2end
            obtain ⟨hr2ftb, hr2can, hr2eq⟩ := hprops
            -- store-level facts for st1
            have hcansplit := canon_nodup_split isFTBc u v rb
              (by rw [← hsplit]; exact hcan) hrbfacts.2.1
            have hnodupid1 : ((u ++ applyPatch (updateBody
                { kv.2 with
                  description := some ("This is a blocker event created by fogTime.\nfogTimeID: "
                                        ++ kv.2.id) }) rb :: v).map RawEvent.id).Nodup := by
              have : (u ++ applyPatch (updateBody
                  { kv.2 with
                    description := some ("This is a blocker event created by fogTime.\nfogTimeID: "
                                          ++ kv.2.id) }) rb :: v).map RawEvent.id
                  = (u ++ rb :: v).map RawEvent.id := by
                rw [List.map_append, List.map_append, List.map_cons, List.map_cons,
                  applyPatch_id]
              rw [this, ← hsplit]
              exact hid
            have hcanlist1 : ((u ++ applyPatch (updateBody
                { kv.2 with
                  description := some ("This is a blocker event created by fogTime.\nfogTimeID: "
                                        ++ kv.2.id) }) rb :: v).filter isFTBc).map canonOf
                = ((u ++ rb :: v).filter isFTBc).map canonOf := by
              rw [List.filter_append, List.filter_append,
                List.filter_cons_of_pos hr2ftb, List.filter_cons_of_pos hrbfacts.2.1,
                List.map_append, List.map_append, List.map_cons, List.map_cons,
                hr2can, hrbcan]
            have hnodupcan1 : (((u ++ applyPatch (updateBody
                { kv.2 with
                  description := some ("This is a blocker event created by fogTime.\nfogTimeID: "
                                        ++ kv.2.id) }) rb :: v).filter isFTBc).map canonOf).Nodup := by
              rw [hcanlist1, ← hsplit]
              exact hcan
            have hlast1 : lastStore isFTBc kv.1 (u ++ applyPatch (updateBody
                { kv.2 with
                  description := some ("This is a blocker event created by fogTime.\nfogTimeID: "
                                        ++ kv.2.id) }) rb :: v)
                = some (applyPatch (updateBody
                  { kv.2 with
                    description := some ("This is a blocker event created by fogTime.\nfogTimeID: "
                                          ++ kv.2.id) }) rb) := by
              refine lastStore_middle_hit _ _ _ _ _ ⟨hr2ftb, hr2can⟩ ?_
              rw [lastStore_none_iff]
              intro r hr hcr
              exact (hrbcan ▸ hcansplit.2) r hr hcr
            have hlastother : ∀ k, k ≠ kv.1 →
                lastStore isFTBc k (u ++ applyPatch (updateBody
                  { kv.2 with
                    description := some ("This is a blocker event created by fogTime.\nfogTimeID: "
                                          ++ kv.2.id) }) rb :: v)
                  = lastStore isFTBc k st := by
              intro k hk
              rw [lastStore_middle_other _ _ _ _ _ (by
                  rintro ⟨_, hc2⟩
                  exact hk (hr2can ▸ hc2 ▸ rfl)),
                ← lastStore_middle_other isFTBc k u v rb (by
                  rintro ⟨_, hc2⟩
                  exact hk (hrbcan ▸ hc2 ▸ rfl)), ← hsplit]
            -- blockerSync transport to the patched store for the tail
            have hact' : ∀ kv2 ∈ Dt', blockerSync B (u ++ applyPatch (updateBody
                { kv.2 with
                  description := some ("This is a blocker event created by fogTime.\nfogTimeID: "
                                        ++ kv.2.id) }) rb :: v) kv2.1 := by
              intro kv2 hkv2
              have hne : kv2.1 ≠ kv.1 := by
                intro he
                exact hkhd (he ▸ List.mem_map_of_mem Prod.fst hkv2)
              have := hact kv2 (List.mem_cons_of_mem _ hkv2)
              rw [blockerSync] at this ⊢
              rw [hlastother kv2.1 hne]
              exact this
            rw [hstep, hpatch]
            have hih := ih _ n (fun kv2 h2 => hwf kv2 (List.mem_cons_of_mem _ h2))
              hknd' hact' hnodupid1 hnodupcan1
              (fun i h1 h2 => by
                have : (u ++ applyPatch (updateBody
                    { kv.2 with
                      description := some ("This is a blocker event created by fogTime.\nfogTimeID: "
                                            ++ kv.2.id) }) rb :: v).map RawEvent.id
                    = st.map RawEvent.id := by
                  rw [List.map_append, List.map_cons, applyPatch_id, hsplit,
                    List.map_append, List.map_cons]
                rw [this]
                exact hf1 i h1 (by simp only [List.length_cons] at *; omega))
              (fun i j h1 h2 h3 => hf2 i j h1 h2 (by simp only [List.length_cons] at *; omega))
            refine ⟨hih.1, hih.2.1, ?_, ?_⟩
            · intro k hk
              have hkne : k ≠ kv.1 := by
                intro he
                exact hk (by
                  simp only [dkeys, List.map_cons, List.mem_cons]
                  exact Or.inl he)
              have hk' : k ∉ dkeys Dt' := by
                intro hc
                exact hk (by
                  simp only [dkeys, List.map_cons, List.mem_cons]
                  exact Or.inr hc)
              rw [hih.2.2.1 k hk', hlastother k hkne]
            · intro kv2 hkv2
              rcases List.mem_cons.mp hkv2 with rfl | hkv2
              · have hpres := hih.2.2.1 kv2.1 hkhd
                refine ⟨create_calender_event_object (applyPatch (updateBody
                  { kv2.2 with
                    description := some ("This is a blocker event created by fogTime.\nfogTimeID: "
                                          ++ kv2.2.id) }) rb) false, ?_, hr2eq⟩
                rw [get_blockers_eq2, dlookup_collectD, hpres, hlast1]
                rfl
              · exact hih.2.2.2 kv2 hkv2
      | none =>
          -- create branch
          have hlsnone := blockerSync_none B st kv.1 hacthd hdl
          have hstep : applyActions fresh st n (fwdCU (kv :: Dt') B)
              = applyActions fresh
                  (st ++ [newRawEvent (fresh n) (createBody
                    { kv.2 with
                      summary := some "FogTime Blocker",
                      description := some ("This is a blocker event created by fogTime.\nfogTimeID: "
                                            ++ kv.2.id) })]) (n + 1) (fwdCU Dt' B) := by
            rw [hcu, hdl]
            show applyActions fresh st n
              ([create_event _] ++ fwdCU Dt' B) = _
            rw [List.cons_append, List.nil_append, applyActions_cons,
              applyAction_create]
          obtain ⟨hid0, hsumn, hdescn, hvs, hve, hnl⟩ := hwfhd
          obtain ⟨g1, hg1, hg1r⟩ := gd_roundtrip kv.2.start hvs
          obtain ⟨g2, hg2, hg2r⟩ := gd_roundtrip kv.2.end_ hve
          have hnewsum : (newRawEvent (fresh n) (createBody
              { kv.2 with
                summary := some "FogTime Blocker",
                description := some ("This is a blocker event created by fogTime.\nfogTimeID: "
                                      ++ kv.2.id) })).summary = "FogTime Blocker" := by
            simp [newRawEvent, createBody]
          have hnewdesc : (newRawEvent (fresh n) (createBody
              { kv.2 with
                summary := some "FogTime Blocker",
                description := some ("This is a blocker event created by fogTime.\nfogTimeID: "
                                      ++ kv.2.id) })).description
              = some ("This is a blocker event created by fogTime.\nfogTimeID: "
                  ++ kv.2.id) := by
            simp [newRawEvent, createBody]
          have hnewstart : readTS (newRawEvent (fresh n) (createBody
              { kv.2 with
                summary := some "FogTime Blocker",
                description := some ("This is a blocker event created by fogTime.\nfogTimeID: "
                                      ++ kv.2.id) })).start = kv.2.start := by
            simp only [newRawEvent, createBody]
            show readTS ((CalendarTimeStamp.get_google_dict kv.2.start).getD ⟨none, none⟩) = _
            rw [hg1]
            simpa using hg1r
          have hnewend : readTS (newRawEvent (fresh n) (createBody
              { kv.2 with
                summary := some "FogTime Blocker",
                description := some ("This is a blocker event created by fogTime.\nfogTimeID: "
                                      ++ kv.2.id) })).end_ = kv.2.end_ := by
            simp only [newRawEvent, createBody]
            show readTS ((CalendarTimeStamp.get_google_dict kv.2.end_).getD ⟨none, none⟩) = _
            rw [hg2]
            simpa using hg2r
          have hprops := fwd_record_props kv _ ⟨hid0, hsumn, hdescn, hvs, hve, hnl⟩
            hnewsum hnewdesc hnewstart hnewend
          obtain ⟨hnewftb, hnewcan, hneweq⟩ := hprops
          have hnewid : (newRawEvent (fresh n) (createBody
              { kv.2 with
                summary := some "FogTime Blocker",
                description := some ("This is a blocker event created by fogTime.\nfogTimeID: "
                                      ++ kv.2.id) })).id = fresh n := rfl
          have hfreshn : fresh n ∉ st.map RawEvent.id :=
            hf1 n (Nat.le_refl n) (by simp only [List.length_cons]; omega)
          have hnodupid1 : ((st ++ [newRawEvent (fresh n) (createBody
              { kv.2 with
                summary := some "FogTime Blocker",
                description := some ("This is a blocker event created by fogTime.\nfogTimeID: "
                                      ++ kv.2.id) })]).map RawEvent.id).Nodup := by
            rw [List.map_append, List.map_singleton, hnewid]
            rw [List.nodup_append]
            refine ⟨hid, List.nodup_singleton _, ?_⟩
            intro x hx hmem
            rcases List.mem_singleton.mp hmem with rfl
            exact hfreshn hx
          have hcannotin : kv.1 ∉ (st.filter isFTBc).map canonOf := by
            intro hmem
            rcases List.mem_map.mp hmem with ⟨r, hr, hcr⟩
            rcases List.mem_filter.mp hr with ⟨hrs, hrc⟩
            exact (lastStore_none_iff _ _ _).mp hlsnone r hrs ⟨hrc, hcr⟩
          have hnodupcan1 : (((st ++ [newRawEvent (fresh n) (createBody
              { kv.2 with
                summary := some "FogTime Blocker",
                description := some ("This is a blocker event created by fogTime.\nfogTimeID: "
                                      ++ kv.2.id) })]).filter isFTBc).map canonOf).Nodup := by
            rw [List.filter_append, List.filter_cons_of_pos hnewftb,
              List.filter_nil, List.map_append, List.map_cons, List.map_nil,
              hnewcan]
            rw [List.nodup_append]
            refine ⟨hcan, List.nodup_singleton _, ?_⟩
            intro x hx hmem
            rcases List.mem_singleton.mp hmem with rfl
            exact hcannotin hx
          have hlast1 : lastStore isFTBc kv.1 (st ++ [newRawEvent (fresh n) (createBody
              { kv.2 with
                summary := some "FogTime Blocker",
                description := some ("This is a blocker event created by fogTime.\nfogTimeID: "
                                      ++ kv.2.id) })])
              = some (newRawEvent (fresh n) (createBody
                { kv.2 with
                  summary := some "FogTime Blocker",
                  description := some ("This is a blocker event created by fogTime.\nfogTimeID: "
                                        ++ kv.2.id) })) := by
            rw [lastStore_snoc, if_pos ⟨hnewftb, hnewcan⟩]
          have hlastother : ∀ k, k ≠ kv.1 →
              lastStore isFTBc k (st ++ [newRawEvent (fresh n) (createBody
                { kv.2 with
                  summary := some "FogTime Blocker",
                  description := some ("This is a blocker event created by fogTime.\nfogTimeID: "
                                        ++ kv.2.id) })])
                = lastStore isFTBc k st := by
            intro k hk
            rw [lastStore_snoc, if_neg (by
              rintro ⟨_, hc2⟩
              exact hk (hnewcan ▸ hc2 ▸ rfl))]
          have hact' : ∀ kv2 ∈ Dt', blockerSync B (st ++ [newRawEvent (fresh n) (createBody
              { kv.2 with
                summary := some "FogTime Blocker",
                description := some ("This is a blocker event created by fogTime.\nfogTimeID: "
                                      ++ kv.2.id) })]) kv2.1 := by
            intro kv2 hkv2
            have hne : kv2.1 ≠ kv.1 := by
              intro he
              exact hkhd (he ▸ List.mem_map_of_mem Prod.fst hkv2)
            have := hact kv2 (List.mem_cons_of_mem _ hkv2)
            rw [blockerSync] at this ⊢
            rw [hlastother kv2.1 hne]
            exact this
          rw [hstep]
          have hih := ih _ (n + 1) (fun kv2 h2 => hwf kv2 (List.mem_cons_of_mem _ h2))
            hknd' hact' hnodupid1 hnodupcan1
            (fun i h1 h2 => by
              rw [List.map_append, List.map_singleton, hnewid]
              intro hmem
              rcases List.mem_append.mp hmem with hmem | hmem
              · exact hf1 i (by omega) (by simp only [List.length_cons] at *; omega) hmem
              · rcases List.mem_singleton.mp hmem with he
                exact hf2 n i (Nat.le_refl n) (by omega)
                  (by simp only [List.length_cons] at *; omega) he.symm)
            (fun i j h1 h2 h3 => hf2 i j (by omega) h2
              (by simp only [List.length_cons] at *; omega))
          refine ⟨hih.1, hih.2.1, ?_, ?_⟩
          · intro k hk
            have hkne : k ≠ kv.1 := by
              intro he
              exact hk (by
                simp only [dkeys, List.map_cons, List.mem_cons]
                exact Or.inl he)
            have hk' : k ∉ dkeys Dt' := by
              intro hc
              exact hk (by
                simp only [dkeys, List.map_cons, List.mem_cons]
                exact Or.inr hc)
            rw [hih.2.2.1 k hk', hlastother k hkne]
          · intro kv2 hkv2
            rcases List.mem_cons.mp hkv2 with rfl | hkv2
            · have hpres := hih.2.2.1 kv2.1 hkhd
              refine ⟨create_calender_event_object (newRawEvent (fresh n) (createBody
                { kv2.2 with
                  summary := some "FogTime Blocker",
                  description := some ("This is a blocker event created by fogTime.\nfogTimeID: "
                                        ++ kv2.2.id) })) false, ?_, hneweq⟩
              rw [get_blockers_eq2, dlookup_collectD, hpres, hlast1]
              rfl
            · exact hih.2.2.2 kv2 hkv2

theorem fwd_phase2 (D : Dict) (fresh : Nat → String) :
    ∀ (Bt : Dict) (st : List RawEvent) (n : Nat),
    (dkeys Bt).Nodup →
    (∀ kv ∈ Bt, dlookup kv.1 D = none →
      ∃ rb, lastStore isFTBc kv.1 st = some rb ∧ kv.2.originalID = some rb.id) →
    (st.map RawEvent.id).Nodup →
    ((st.filter isFTBc).map canonOf).Nodup →
    (((applyActions fresh st n (fwdDel D Bt)).1.map RawEvent.id).Nodup)
    ∧ ((((applyActions fresh st n (fwdDel D Bt)).1.filter isFTBc).map canonOf).Nodup)
    ∧ (∀ k, (k ∉ dkeys Bt ∨ dlookup k D ≠ none) →
        lastStore isFTBc k (applyActions fresh st n (fwdDel D Bt)).1
          = lastStore isFTBc k st)
    ∧ (∀ kv ∈ Bt, dlookup kv.1 D = none →
        lastStore isFTBc kv.1 (applyActions fresh st n (fwdDel D Bt)).1 = none) := by
  intro Bt
  induction Bt with
  | nil =>
      intro st n _ _ hids hcan
      refine ⟨hids, hcan, fun k _ => ?_, fun kv hkv => absurd hkv (by simp)⟩
      rw [fwdDel]
      simp only [List.flatMap_nil]
      rfl
  | cons kv Bt' ih =>
      intro st n hknd hsync hids hcan
      have hkhd : kv.1 ∉ dkeys Bt' := by
        simp only [dkeys, List.map_cons, List.nodup_cons] at hknd
        exact hknd.1
      have hknd' : (dkeys Bt').Nodup := by
        simp only [dkeys, List.map_cons, List.nodup_cons] at hknd
        exact hknd.2
      have hdel : fwdDel D (kv :: Bt')
          = (if dlookup kv.1 D = none then [Action.delete kv.2.originalID] else [])
            ++ fwdDel D Bt' := rfl
      by_cases hd : dlookup kv.1 D = none
      · obtain ⟨rb, hls, horig⟩ := hsync kv (List.mem_cons_self _ _) hd
        have hrbfacts := lastStore_mem _ _ _ _ hls
        have hrbmem : rb ∈ st := hrbfacts.1
        have hrbcan : canonOf rb = kv.1 := hrbfacts.2.2
        obtain ⟨u, v, hsplit⟩ := List.append_of_mem hrbmem
        have hufront : ∀ x ∈ u, x.id ≠ rb.id := by
          rw [hsplit] at hids
          exact ids_front u v rb hids
        have hstep : applyActions fresh st n (fwdDel D (kv :: Bt'))
            = applyActions fresh (u ++ v) n (fwdDel D Bt') := by
          rw [hdel, if_pos hd, List.cons_append, List.nil_append,
            applyActions_cons, horig]
          show applyActions fresh (deleteList rb.id st) n (fwdDel D Bt') = _
          rw [hsplit, deleteList_split u v rb hufront]
        have hsub : List.Sublist (u ++ v) (u ++ rb :: v) :=
          List.Sublist.append_left (List.sublist_cons_self rb v) u
        have hids1 : ((u ++ v).map RawEvent.id).Nodup := by
          rw [hsplit] at hids
          exact hids.sublist (hsub.map RawEvent.id)
        have hcan1 : (((u ++ v).filter isFTBc).map canonOf).Nodup := by
          rw [hsplit] at hcan
          exact hcan.sublist ((hsub.filter isFTBc).map canonOf)
        have hcansplit := canon_nodup_split isFTBc u v rb
          (by rw [← hsplit]; exact hcan) hrbfacts.2.1
        have hlastnone : lastStore isFTBc kv.1 (u ++ v) = none := by
          rw [lastStore_append]
          have hv : lastStore isFTBc kv.1 v = none := by
            rw [lastStore_none_iff]
            intro r hr hcr
            exact (hrbcan ▸ hcansplit.2) r hr hcr
          have hu : lastStore isFTBc kv.1 u = none := by
            rw [lastStore_none_iff]
            intro r hr hcr
            exact (hrbcan ▸ hcansplit.1) r hr hcr
          rw [hv, hu]
        have hlastother : ∀ k, k ≠ kv.1 →
            lastStore isFTBc k (u ++ v) = lastStore isFTBc k st := by
          intro k hk
          rw [← lastStore_middle_other isFTBc k u v rb (by
              rintro ⟨_, hc2⟩
              exact hk (hrbcan ▸ hc2 ▸ rfl)), ← hsplit]
        have hsync' : ∀ kv2 ∈ Bt', dlookup kv2.1 D = none →
            ∃ rb2, lastStore isFTBc kv2.1 (u ++ v) = some rb2
              ∧ kv2.2.originalID = some rb2.id := by
          intro kv2 hkv2 hd2
          have hne : kv2.1 ≠ kv.1 := by
            intro he
            exact hkhd (he ▸ List.mem_map_of_mem Prod.fst hkv2)
          obtain ⟨rb2, hls2, ho2⟩ := hsync kv2 (List.mem_cons_of_mem _ hkv2) hd2
          exact ⟨rb2, by rw [hlastother kv2.1 hne]; exact hls2, ho2⟩
        rw [hstep]
        have hih := ih (u ++ v) n hknd' hsync' hids1 hcan1
        refine ⟨hih.1, hih.2.1, ?_, ?_⟩
        · intro k hk
          have hkne : k ≠ kv.1 := by
            intro he
            rcases hk with hk | hk
            · exact hk (by
                simp only [dkeys, List.map_cons, List.mem_cons]
                exact Or.inl he)
            · exact hk (he ▸ hd)
          have hk' : k ∉ dkeys Bt' ∨ dlookup k D ≠ none := by
            rcases hk with hk | hk
            · exact Or.inl (fun hc => hk (by
                simp only [dkeys, List.map_cons, List.mem_cons]
                exact Or.inr hc))
            · exact Or.inr hk
          rw [hih.2.2.1 k hk', hlastother k hkne]
        · intro kv2 hkv2 hd2
          rcases List.mem_cons.mp hkv2 with rfl | hkv2
          · rw [hih.2.2.1 kv2.1 (Or.inl hkhd), hlastnone]
          · exact hih.2.2.2 kv2 hkv2 hd2
      · have hstep : applyActions fresh st n (fwdDel D (kv :: Bt'))
            = applyActions fresh st n (fwdDel D Bt') := by
          rw [hdel, if_neg hd, List.nil_append]
        rw [hstep]
        have hih := ih st n hknd'
          (fun kv2 hkv2 hd2 => hsync kv2 (List.mem_cons_of_mem _ hkv2) hd2)
          hids hcan
        refine ⟨hih.1, hih.2.1, ?_, ?_⟩
        · intro k hk
          have hk' : k ∉ dkeys Bt' ∨ dlookup k D ≠ none := by
            rcases hk with hk | hk
            · exact Or.inl (fun hc => hk (by
                simp only [dkeys, List.map_cons, List.mem_cons]
                exact Or.inr hc))
            · exact Or.inr hk
          exact hih.2.2.1 k hk'
        · intro kv2 hkv2 hd2
          rcases List.mem_cons.mp hkv2 with rfl | hkv2
          · exact absurd hd2 hd
          · exact hih.2.2.2 kv2 hkv2 hd2

theorem dlookup_gb (st : List RawEvent) (k : String) :
    dlookup k (get_blockers st)
      = (lastStore isFTBc k st).map (fun r => create_calender_event_object r false) := by
  rw [get_blockers_eq2, dlookup_collectD]

theorem fwd_idem (D : Dict) (st : List RawEvent) (fresh : Nat → String) (n0 : Nat)
    (hwf : ∀ kv ∈ D, fwdWF kv)
    (hknd : (dkeys D).Nodup)
    (hids : (st.map RawEvent.id).Nodup)
    (hcan : ((st.filter isFTBc).map canonOf).Nodup)
    (hf1 : ∀ i, n0 ≤ i → i < n0 + D.length → fresh i ∉ st.map RawEvent.id)
    (hf2 : ∀ i j, n0 ≤ i → i < j → j < n0 + D.length → fresh i ≠ fresh j) :
    sync_blockers D (get_blockers
      (applyActions fresh st n0 (sync_blockers D (get_blockers st))).1) = [] := by
  have hact : ∀ kv ∈ D, blockerSync (get_blockers st) st kv.1 := by
    intro kv _
    rw [blockerSync]
    rw [dlookup_gb]
    cases hls : lastStore isFTBc kv.1 st with
    | some rb => exact ⟨rb, rfl, rfl⟩
    | none => rfl
  have hp1 := fwd_phase1 (get_blockers st) fresh D st n0 hwf hknd hact hids hcan hf1 hf2
  have happ : applyActions fresh st n0 (sync_blockers D (get_blockers st))
      = applyActions fresh
          (applyActions fresh st n0 (fwdCU D (get_blockers st))).1
          (applyActions fresh st n0 (fwdCU D (get_blockers st))).2
          (fwdDel D (get_blockers st)) := by
    rw [sync_blockers_eq, applyActions_append]
  have hBnd : (dkeys (get_blockers st)).Nodup := by
    rw [get_blockers_eq2]
    exact nodup_dkeys_collectD _ _ _
  have hsync2 : ∀ kv ∈ get_blockers st, dlookup kv.1 D = none →
      ∃ rb, lastStore isFTBc kv.1
          (applyActions fresh st n0 (fwdCU D (get_blockers st))).1 = some rb
        ∧ kv.2.originalID = some rb.id := by
    intro kv hkv hd
    have hdlB : dlookup kv.1 (get_blockers st) = some kv.2 :=
      dlookup_of_mem_nodup kv _ hBnd hkv
    rw [dlookup_gb] at hdlB
    cases hls : lastStore isFTBc kv.1 st with
    | none => rw [hls] at hdlB; simp at hdlB
    | some rb =>
        rw [hls] at hdlB
        simp only [Option.map_some'] at hdlB
        have hknotD : kv.1 ∉ dkeys D := (dlookup_none_iff _ _).mp hd
        have hval : create_calender_event_object rb false = kv.2 := by
          injection hdlB
        refine ⟨rb, ?_, ?_⟩
        · rw [hp1.2.2.1 kv.1 hknotD, hls]
        · rw [← hval, create_originalID]
  have hp2 := fwd_phase2 D fresh (get_blockers st)
    (applyActions fresh st n0 (fwdCU D (get_blockers st))).1
    (applyActions fresh st n0 (fwdCU D (get_blockers st))).2
    hBnd hsync2 hp1.1 hp1.2.1
  rw [happ]
  rw [sync_blockers_eq]
  rw [List.append_eq_nil]
  constructor
  · -- the create/update loop of the second run is empty
    refine flatMap_nil_of _ _ ?_
    intro kv hkv
    have hDne : dlookup kv.1 D ≠ none := dlookup_ne_none_of_mem kv D hkv
    obtain ⟨b2, hdl2, heq2⟩ := hp1.2.2.2 kv hkv
    have hpres := hp2.2.2.1 kv.1 (Or.inr hDne)
    have hdl3 : dlookup kv.1 (get_blockers
        (applyActions fresh
          (applyActions fresh st n0 (fwdCU D (get_blockers st))).1
          (applyActions fresh st n0 (fwdCU D (get_blockers st))).2
          (fwdDel D (get_blockers st))).1) = some b2 := by
      rw [dlookup_gb, hpres, ← dlookup_gb, hdl2]
    rw [hdl3]
    show (if CalendarEvent.eq kv.2 b2 then ([] : List Action)
      else [update_blocker _ b2]) = []
    rw [if_pos heq2]
  · -- the delete loop of the second run is empty
    refine flatMap_nil_of _ _ ?_
    intro kv hkv
    by_cases hd : dlookup kv.1 D = none
    · exfalso
      have hne := dlookup_ne_none_of_mem kv _ hkv
      rw [dlookup_gb] at hne
      have hlast : lastStore isFTBc kv.1
          (applyActions fresh
            (applyActions fresh st n0 (fwdCU D (get_blockers st))).1
            (applyActions fresh st n0 (fwdCU D (get_blockers st))).2
            (fwdDel D (get_blockers st))).1 ≠ none := by
        intro hc
        rw [hc] at hne
        exact hne rfl
      by_cases hB : dlookup kv.1 (get_blockers st) = none
      · have hknotD : kv.1 ∉ dkeys D := (dlookup_none_iff _ _).mp hd
        have hknotB : kv.1 ∉ dkeys (get_blockers st) := (dlookup_none_iff _ _).mp hB
        have hls0 : lastStore isFTBc kv.1 st = none := by
          rw [dlookup_gb] at hB
          cases hls : lastStore isFTBc kv.1 st with
          | none => rfl
          | some rb => rw [hls] at hB; simp at hB
        have h1 := hp1.2.2.1 kv.1 hknotD
        have h2 := hp2.2.2.1 kv.1 (Or.inl hknotB)
        rw [h2, h1, hls0] at hlast
        exact hlast rfl
      · cases hBs : dlookup kv.1 (get_blockers st) with
        | none => exact absurd hBs hB
        | some bB =>
            have hBmem : (kv.1, bB) ∈ get_blockers st := dlookup_mem _ _ _ hBs
            have := hp2.2.2.2 (kv.1, bB) hBmem hd
            rw [this] at hlast
            exact hlast rfl
    · rw [if_neg hd]

/-! ### Reverse-phase idempotence scaffolding -/

def isAllc : RawEvent → Bool := fun _ => true

theorem gce_true_eq2 (events : List RawEvent) :
    get_calendar_events events true = collectD isAllc true events :=
  gce_true_eq events

theorem dlookup_oa (st : List RawEvent) (k : String) :
    dlookup k (get_calendar_events st true)
      = (lastStore isAllc k st).map (fun r => create_calender_event_object r true) := by
  rw [gce_true_eq2, dlookup_collectD]

/-- Well-formedness of a stamped reverse desired entry. -/
def revWF (kv : String × CalendarEvent) : Prop :=
  kv.2.id = kv.1
  ∧ (∃ s, kv.2.summary = some s ∧ s ≠ "")
  ∧ (∃ dsc, kv.2.description = some dsc ∧ decodeTag dsc = some kv.1 ∧ dsc ≠ "")
  ∧ validTS kv.2.start = true ∧ validTS kv.2.end_ = true

theorem reverse_desired_wf (src : List RawEvent)
    (hsrc : ∀ r ∈ src, validTS (readTS r.start) = true
      ∧ validTS (readTS r.end_) = true ∧ noNl r.id = true ∧ r.summary ≠ "") :
    ∀ kv ∈ reverse_desired src, revWF kv := by
  intro kv hkv
  rw [reverse_desired] at hkv
  rcases List.mem_map.mp hkv with ⟨kv0, hkv0, hf⟩
  have hnb := mem_get_not_blocker src kv0 hkv0
  have hmem := mem_collectD isAllc true src kv0 (by
    rw [← gce_true_eq2]; exact hnb.1)
  rcases hmem with ⟨r, hr, _, hval, hkey⟩
  obtain ⟨hvs, hve, hnl, hsumne⟩ := hsrc r hr
  have hid0 : kv0.2.id = canonOf r := by rw [hval, create_id]
  have hnlc : noNl (canonOf r) = true := canonOf_noNl r hnl
  have hdesc0 : kv0.2.description = some (r.description.getD "") := by
    rw [hval, create_true_description]
  subst hf
  refine ⟨?_, ⟨r.summary, ?_, hsumne⟩, ?_, ?_, ?_⟩
  · show kv0.2.id = kv0.1
    rw [hkey]
  · show kv0.2.summary = some r.summary
    rw [hval, create_true_summary]
  · refine ⟨(match kv0.2.description with
      | some d => d
      | none => "None") ++ "\nfogTimeID: " ++ kv0.2.id, rfl, ?_, ?_⟩
    · show decodeTag _ = some kv0.1
      rw [hdesc0]
      show decodeTag (r.description.getD "" ++ "\nfogTimeID: " ++ kv0.2.id) = some kv0.1
      rw [hid0]
      rw [decode_roundtrip _ _ hnlc]
      rw [← hid0, hkey]
    · exact str3_ne_empty _ _
  · show validTS kv0.2.start = true
    rw [hval, create_start]
    exact hvs
  · show validTS kv0.2.end_ = true
    rw [hval, create_end]
    exact hve

/-- Generic form of the existing-map/store relation. -/
def storeSync (c : RawEvent → Bool) (keep : Bool) (B : Dict) (st : List RawEvent)
    (k : String) : Prop :=
  match dlookup k B with
  | some o => ∃ ro, lastStore c k st = some ro
      ∧ create_calender_event_object ro keep = o
  | none => lastStore c k st = none

theorem storeSync_some (c : RawEvent → Bool) (keep : Bool) (B : Dict)
    (st : List RawEvent) (k : String) (o : CalendarEvent)
    (h : storeSync c keep B st k) (hdl : dlookup k B = some o) :
    ∃ ro, lastStore c k st = some ro
      ∧ create_calender_event_object ro keep = o := by
  rw [storeSync, hdl] at h
  exact h

theorem storeSync_none (c : RawEvent → Bool) (keep : Bool) (B : Dict)
    (st : List RawEvent) (k : String)
    (h : storeSync c keep B st k) (hdl : dlookup k B = none) :
    lastStore c k st = none := by
  rw [storeSync, hdl] at h
  exact h

theorem rev_record_props (kv : String × CalendarEvent) (r2 : RawEvent)
    (hwf : revWF kv)
    (hsum : kv.2.summary = some r2.summary)
    (hdesc : r2.description = kv.2.description)
    (hstart : readTS r2.start = kv.2.start)
    (hend : readTS r2.end_ = kv.2.end_) :
    canonOf r2 = kv.1
    ∧ CalendarEvent.eq kv.2 (create_calender_event_object r2 true) = true := by
  obtain ⟨hid, ⟨s, hs, _⟩, ⟨dsc, hdsc, hdec, _⟩, _, _⟩ := hwf
  have hdec2 : decodeTag (r2.description.getD "") = some kv.1 := by
    rw [hdesc, hdsc]
    simpa using hdec
  have hcan : canonOf r2 = kv.1 := by
    rw [canonOf, hdec2]
  refine ⟨hcan, ?_⟩
  rw [CalendarEvent.eq]
  apply decide_eq_true
  refine ⟨?_, ?_, ?_, ?_, ?_⟩
  · rw [create_id, hcan, hid]
  · rw [create_start]
    exact hstart.symm
  · rw [create_end]
    exact hend.symm
  · rw [create_true_summary, hsum]
  · rw [create_true_description, hdesc, hdsc]
    simp

theorem rev_patched_props (kv : String × CalendarEvent) (rb : RawEvent)
    (hwf : revWF kv) :
    kv.2.summary = some (applyPatch (updateBody kv.2) rb).summary
    ∧ (applyPatch (updateBody kv.2) rb).description = kv.2.description
    ∧ readTS (applyPatch (updateBody kv.2) rb).start = kv.2.start
    ∧ readTS (applyPatch (updateBody kv.2) rb).end_ = kv.2.end_ := by
  obtain ⟨hid, ⟨s, hs, hsne⟩, ⟨dsc, hdsc, hdec, hdne⟩, hvs, hve⟩ := hwf
  have hts : truthy kv.2.summary = true := by
    rw [hs]; exact (truthy_some_iff s).mpr hsne
  have htd : truthy kv.2.description = true := by
    rw [hdsc]; exact (truthy_some_iff dsc).mpr hdne
  obtain ⟨g1, hg1, hg1r⟩ := gd_roundtrip kv.2.start hvs
  obtain ⟨g2, hg2, hg2r⟩ := gd_roundtrip kv.2.end_ hve
  refine ⟨?_, ?_, ?_, ?_⟩
  · show kv.2.summary
      = some ((if truthy kv.2.summary then kv.2.summary else none).getD rb.summary)
    rw [if_pos hts, hs]
    rfl
  · show (match (if truthy kv.2.description then kv.2.description else none :
        Option String) with
      | some d => some d
      | none => rb.description) = kv.2.description
    rw [if_pos htd, hdsc]
  · simp only [applyPatch, updateBody]
    show readTS ((CalendarTimeStamp.get_google_dict kv.2.start).getD rb.start) = _
    rw [hg1]
    simpa using hg1r
  · simp only [applyPatch, updateBody]
    show readTS ((CalendarTimeStamp.get_google_dict kv.2.end_).getD rb.end_) = _
    rw [hg2]
    simpa using hg2r

theorem rev_created_props (kv : String × CalendarEvent) (fid : String)
    (hwf : revWF kv) :
    kv.2.summary = some (newRawEvent fid (createBody kv.2)).summary
    ∧ (newRawEvent fid (createBody kv.2)).description = kv.2.description
    ∧ readTS (newRawEvent fid (createBody kv.2)).start = kv.2.start
    ∧ readTS (newRawEvent fid (createBody kv.2)).end_ = kv.2.end_ := by
  obtain ⟨hid, ⟨s, hs, hsne⟩, ⟨dsc, hdsc, hdec, hdne⟩, hvs, hve⟩ := hwf
  obtain ⟨g1, hg1, hg1r⟩ := gd_roundtrip kv.2.start hvs
  obtain ⟨g2, hg2, hg2r⟩ := gd_roundtrip kv.2.end_ hve
  refine ⟨?_, ?_, ?_, ?_⟩
  · show kv.2.summary = some (kv.2.summary.getD "")
    rw [hs]
    rfl
  · rfl
  · simp only [newRawEvent, createBody]
    show readTS ((CalendarTimeStamp.get_google_dict kv.2.start).getD ⟨none, none⟩) = _
    rw [hg1]
    simpa using hg1r
  · simp only [newRawEvent, createBody]
    show readTS ((CalendarTimeStamp.get_google_dict kv.2.end_).getD ⟨none, none⟩) = _
    rw [hg2]
    simpa using hg2r

def revCUd (Dt B : Dict) : List Action :=
  Dt.flatMap (fun kv =>
    match dlookup kv.1 B with
    | some o => if CalendarEvent.eq kv.2 o then [] else [update_blocker kv.2 o]
    | none => [create_event kv.2])

theorem revCU_eq (src tgt : List RawEvent) :
    revCU src tgt
      = revCUd (reverse_desired src) (get_calendar_events tgt true) := rfl

def revDeld (nb B : Dict) : List Action :=
  B.flatMap (fun kv =>
    if dlookup kv.1 nb = none && hasFogSub (kv.2.description.getD "")
    then [Action.delete kv.2.originalID] else [])

theorem revDel_eq (src tgt : List RawEvent) :
    revDel src tgt
      = revDeld (reverse_desired src) (get_calendar_events tgt true) := rfl

theorem rev_phase1 (B : Dict) (fresh : Nat → String) :
    ∀ (Dt : Dict) (st : List RawEvent) (n : Nat),
    (∀ kv ∈ Dt, revWF kv) →
    (dkeys Dt).Nodup →
    (∀ kv ∈ Dt, storeSync isAllc true B st kv.1) →
    (st.map RawEvent.id).Nodup →
    ((st.filter isAllc).map canonOf).Nodup →
    (∀ i, n ≤ i → i < n + Dt.length → fresh i ∉ st.map RawEvent.id) →
    (∀ i j, n ≤ i → i < j → j < n + Dt.length → fresh i ≠ fresh j) →
    (((applyActions fresh st n (revCUd Dt B)).1.map RawEvent.id).Nodup)
    ∧ ((((applyActions fresh st n (revCUd Dt B)).1.filter isAllc).map canonOf).Nodup)
    ∧ (∀ k, k ∉ dkeys Dt →
        lastStore isAllc k (applyActions fresh st n (revCUd Dt B)).1
          = lastStore isAllc k st)
    ∧ (∀ kv ∈ Dt, ∃ o2,
        dlookup kv.1 (get_calendar_events (applyActions fresh st n (revCUd Dt B)).1 true)
          = some o2
        ∧ CalendarEvent.eq kv.2 o2 = true) := by
  intro Dt
  induction Dt with
  | nil =>
      intro st n _ _ _ hid hcan _ _
      refine ⟨hid, hcan, fun k _ => ?_, fun kv hkv => absurd hkv (by simp)⟩
      rw [revCUd]
      simp only [List.flatMap_nil]
      rfl
  | cons kv Dt' ih =>
      intro st n hwf hknd hact hid hcan hf1 hf2
      have hwfhd := hwf kv (List.mem_cons_self _ _)
      have hacthd := hact kv (List.mem_cons_self _ _)
      have hkhd : kv.1 ∉ dkeys Dt' := by
        simp only [dkeys, List.map_cons, List.nodup_cons] at hknd
        exact hknd.1
      have hknd' : (dkeys Dt').Nodup := by
        simp only [dkeys, List.map_cons, List.nodup_cons] at hknd
        exact hknd.2
      have hcu : revCUd (kv :: Dt') B
          = (match dlookup kv.1 B with
             | some o =>
                 if CalendarEvent.eq kv.2 o then [] else [update_blocker kv.2 o]
             | none => [create_event kv.2]) ++ revCUd Dt' B := rfl
      cases hdl : dlookup kv.1 B with
      | some o =>
          rcases storeSync_some _ _ B st kv.1 o hacthd hdl with ⟨rb, hls, hbeq⟩
          have hrbfacts := lastStore_mem _ _ _ _ hls
          have hrbmem : rb ∈ st := hrbfacts.1
          have hrbcan : canonOf rb = kv.1 := hrbfacts.2.2
          by_cases heq : CalendarEvent.eq kv.2 o = true
          · have hstep : revCUd (kv :: Dt') B = revCUd Dt' B := by
              rw [hcu, hdl]
              show (if CalendarEvent.eq kv.2 o then ([] : List Action)
                else [update_blocker kv.2 o]) ++ revCUd Dt' B = revCUd Dt' B
              rw [if_pos heq]
              rfl
            rw [hstep]
            have hih := ih st n (fun kv2 h2 => hwf kv2 (List.mem_cons_of_mem _ h2))
              hknd' (fun kv2 h2 => hact kv2 (List.mem_cons_of_mem _ h2)) hid hcan
              (fun i h1 h2 => hf1 i h1 (by simp only [List.length_cons] at *; omega))
              (fun i j h1 h2 h3 => hf2 i j h1 h2 (by simp only [List.length_cons] at *; omega))
            refine ⟨hih.1, hih.2.1, ?_, ?_⟩
            · intro k hk
              refine hih.2.2.1 k ?_
              intro hc
              exact hk (by
                simp only [dkeys, List.map_cons, List.mem_cons]
                exact Or.inr hc)
            · intro kv2 hkv2
              rcases List.mem_cons.mp hkv2 with rfl | hkv2
              · have hpres := hih.2.2.1 kv2.1 hkhd
                refine ⟨o, ?_, heq⟩
                rw [dlookup_oa, hpres, hls]
                simp only [Option.map_some']
                rw [hbeq]
              · exact hih.2.2.2 kv2 hkv2
          · -- update branch
            have horig : o.originalID = some rb.id := by
              rw [← hbeq, create_originalID]
            have hstep : applyActions fresh st n (revCUd (kv :: Dt') B)
                = applyActions fresh
                    (patchList rb.id (updateBody kv.2) st) n (revCUd Dt' B) := by
              rw [hcu, hdl]
              show applyActions fresh st n
                ((if CalendarEvent.eq kv.2 o then ([] : List Action)
                  else [update_blocker kv.2 o]) ++ revCUd Dt' B) = _
              rw [if_neg heq, List.cons_append, List.nil_append, applyActions_cons,
                applyAction_update fresh st n _ o rb.id horig]
            obtain ⟨u, v, hsplit⟩ := List.append_of_mem hrbmem
            have hufront : ∀ x ∈ u, x.id ≠ rb.id := by
              rw [hsplit] at hid
              exact ids_front u v rb hid
            have hpatch : patchList rb.id (updateBody kv.2) st
                = u ++ applyPatch (updateBody kv.2) rb :: v := by
              rw [hsplit]
              exact patchList_split u v rb _ hufront
            obtain ⟨hsum2, hdesc2, hstart2, hend2⟩ := rev_patched_props kv rb hwfhd
            obtain ⟨hr2can, hr2eq⟩ := rev_record_props kv _ hwfhd hsum2 hdesc2 hstart2 hend2
            have hcansplit := canon_nodup_split isAllc u v rb
              (by rw [← hsplit]; exact hcan) hrbfacts.2.1
            have hnodupid1 : ((u ++ applyPatch (updateBody kv.2) rb :: v).map RawEvent.id).Nodup := by
              have : (u ++ applyPatch (updateBody kv.2) rb :: v).map RawEvent.id
                  = (u ++ rb :: v).map RawEvent.id := by
                rw [List.map_append, List.map_append, List.map_cons, List.map_cons,
                  applyPatch_id]
              rw [this, ← hsplit]
              exact hid
            have hcanlist1 : ((u ++ applyPatch (updateBody kv.2) rb :: v).filter isAllc).map canonOf
                = ((u ++ rb :: v).filter isAllc).map canonOf := by
              rw [List.filter_append, List.filter_append,
                List.filter_cons_of_pos rfl, List.filter_cons_of_pos rfl,
                List.map_append, List.map_append, List.map_cons, List.map_cons,
                hr2can, hrbcan]
            have hnodupcan1 : (((u ++ applyPatch (updateBody kv.2) rb :: v).filter isAllc).map canonOf).Nodup := by
              rw [hcanlist1, ← hsplit]
              exact hcan
            have hlast1 : lastStore isAllc kv.1 (u ++ applyPatch (updateBody kv.2) rb :: v)
                = some (applyPatch (updateBody kv.2) rb) := by
              refine lastStore_middle_hit _ _ _ _ _ ⟨rfl, hr2can⟩ ?_
              rw [lastStore_none_iff]
              intro r hr hcr
              exact (hrbcan ▸ hcansplit.2) r hr hcr
            have hlastother : ∀ k, k ≠ kv.1 →
                lastStore isAllc k (u ++ applyPatch (updateBody kv.2) rb :: v)
                  = lastStore isAllc k st := by
              intro k hk
              rw [lastStore_middle_other _ _ _ _ _ (by
                  rintro ⟨_, hc2⟩
                  exact hk (hr2can ▸ hc2 ▸ rfl)),
                ← lastStore_middle_other isAllc k u v rb (by
                  rintro ⟨_, hc2⟩
                  exact hk (hrbcan ▸ hc2 ▸ rfl)), ← hsplit]
            have hact' : ∀ kv2 ∈ Dt',
                storeSync isAllc true B (u ++ applyPatch (updateBody kv.2) rb :: v) kv2.1 := by
              intro kv2 hkv2
              have hne : kv2.1 ≠ kv.1 := by
                intro he
                exact hkhd (he ▸ List.mem_map_of_mem Prod.fst hkv2)
              have := hact kv2 (List.mem_cons_of_mem _ hkv2)
              rw [storeSync] at this ⊢
              rw [hlastother kv2.1 hne]
              exact this
            rw [hstep, hpatch]
            have hih := ih _ n (fun kv2 h2 => hwf kv2 (List.mem_cons_of_mem _ h2))
              hknd' hact' hnodupid1 hnodupcan1
              (fun i h1 h2 => by
                have : (u ++ applyPatch (updateBody kv.2) rb :: v).map RawEvent.id
                    = st.map RawEvent.id := by
                  rw [List.map_append, List.map_cons, applyPatch_id, hsplit,
                    List.map_append, List.map_cons]
                rw [this]
                exact hf1 i h1 (by simp only [List.length_cons] at *; omega))
              (fun i j h1 h2 h3 => hf2 i j h1 h2 (by simp only [List.length_cons] at *; omega))
            refine ⟨hih.1, hih.2.1, ?_, ?_⟩
            · intro k hk
              have hkne : k ≠ kv.1 := by
                intro he
                exact hk (by
                  simp only [dkeys, List.map_cons, List.mem_cons]
                  exact Or.inl he)
              have hk' : k ∉ dkeys Dt' := by
                intro hc
                exact hk (by
                  simp only [dkeys, List.map_cons, List.mem_cons]
                  exact Or.inr hc)
              rw [hih.2.2.1 k hk', hlastother k hkne]
            · intro kv2 hkv2
              rcases List.mem_cons.mp hkv2 with rfl | hkv2
              · have hpres := hih.2.2.1 kv2.1 hkhd
                refine ⟨create_calender_event_object (applyPatch (updateBody kv2.2) rb) true,
                  ?_, hr2eq⟩
                rw [dlookup_oa, hpres, hlast1]
                rfl
              · exact hih.2.2.2 kv2 hkv2
      | none =>
          have hlsnone := storeSync_none _ _ B st kv.1 hacthd hdl
          have hstep : applyActions fresh st n (revCUd (kv :: Dt') B)
              = applyActions fresh
                  (st ++ [newRawEvent (fresh n) (createBody kv.2)]) (n + 1)
                  (revCUd Dt' B) := by
            rw [hcu, hdl]
            show applyActions fresh st n
              ([create_event kv.2] ++ revCUd Dt' B) = _
            rw [List.cons_append, List.nil_append, applyActions_cons,
              applyAction_create]
          obtain ⟨hsum2, hdesc2, hstart2, hend2⟩ := rev_created_props kv (fresh n) hwfhd
          obtain ⟨hnewcan, hneweq⟩ := rev_record_props kv _ hwfhd hsum2 hdesc2 hstart2 hend2
          have hnewid : (newRawEvent (fresh n) (createBody kv.2)).id = fresh n := rfl
          have hfreshn : fresh n ∉ st.map RawEvent.id :=
            hf1 n (Nat.le_refl n) (by simp only [List.length_cons]; omega)
          have hnodupid1 : ((st ++ [newRawEvent (fresh n) (createBody kv.2)]).map RawEvent.id).Nodup := by
            rw [List.map_append, List.map_singleton, hnewid]
            rw [List.nodup_append]
            refine ⟨hid, List.nodup_singleton _, ?_⟩
            intro x hx hmem
            rcases List.mem_singleton.mp hmem with rfl
            exact hfreshn hx
          have hcannotin : kv.1 ∉ (st.filter isAllc).map canonOf := by
            intro hmem
            rcases List.mem_map.mp hmem with ⟨r, hr, hcr⟩
            rcases List.mem_filter.mp hr with ⟨hrs, hrc⟩
            exact (lastStore_none_iff _ _ _).mp hlsnone r hrs ⟨hrc, hcr⟩
          have hnodupcan1 : (((st ++ [newRawEvent (fresh n) (createBody kv.2)]).filter isAllc).map canonOf).Nodup := by
            rw [List.filter_append, List.filter_cons_of_pos rfl,
              List.filter_nil, List.map_append, List.map_cons, List.map_nil,
              hnewcan]
            rw [List.nodup_append]
            refine ⟨hcan, List.nodup_singleton _, ?_⟩
            intro x hx hmem
            rcases List.mem_singleton.mp hmem with rfl
            exact hcannotin hx
          have hlast1 : lastStore isAllc kv.1 (st ++ [newRawEvent (fresh n) (createBody kv.2)])
              = some (newRawEvent (fresh n) (createBody kv.2)) := by
            rw [lastStore_snoc, if_pos ⟨rfl, hnewcan⟩]
          have hlastother : ∀ k, k ≠ kv.1 →
              lastStore isAllc k (st ++ [newRawEvent (fresh n) (createBody kv.2)])
                = lastStore isAllc k st := by
            intro k hk
            rw [lastStore_snoc, if_neg (by
              rintro ⟨_, hc2⟩
              exact hk (hnewcan ▸ hc2 ▸ rfl))]
          have hact' : ∀ kv2 ∈ Dt',
              storeSync isAllc true B (st ++ [newRawEvent (fresh n) (createBody kv.2)]) kv2.1 := by
            intro kv2 hkv2
            have hne : kv2.1 ≠ kv.1 := by
              intro he
              exact hkhd (he ▸ List.mem_map_of_mem Prod.fst hkv2)
            have := hact kv2 (List.mem_cons_of_mem _ hkv2)
            rw [storeSync] at this ⊢
            rw [hlastother kv2.1 hne]
            exact this
          rw [hstep]
          have hih := ih _ (n + 1) (fun kv2 h2 => hwf kv2 (List.mem_cons_of_mem _ h2))
            hknd' hact' hnodupid1 hnodupcan1
            (fun i h1 h2 => by
              rw [List.map_append, List.map_singleton, hnewid]
              intro hmem
              rcases List.mem_append.mp hmem with hmem | hmem
              · exact hf1 i (by omega) (by simp only [List.length_cons] at *; omega) hmem
              · rcases List.mem_singleton.mp hmem with he
                exact hf2 n i (Nat.le_refl n) (by omega)
                  (by simp only [List.length_cons] at *; omega) he.symm)
            (fun i j h1 h2 h3 => hf2 i j (by omega) h2
              (by simp only [List.length_cons] at *; omega))
          refine ⟨hih.1, hih.2.1, ?_, ?_⟩
          · intro k hk
            have hkne : k ≠ kv.1 := by
              intro he
              exact hk (by
                simp only [dkeys, List.map_cons, List.mem_cons]
                exact Or.inl he)
            have hk' : k ∉ dkeys Dt' := by
              intro hc
              exact hk (by
                simp only [dkeys, List.map_cons, List.mem_cons]
                exact Or.inr hc)
            rw [hih.2.2.1 k hk', hlastother k hkne]
          · intro kv2 hkv2
            rcases List.mem_cons.mp hkv2 with rfl | hkv2
            · have hpres := hih.2.2.1 kv2.1 hkhd
              refine ⟨create_calender_event_object (newRawEvent (fresh n) (createBody kv2.2)) true,
                ?_, hneweq⟩
              rw [dlookup_oa, hpres, hlast1]
              rfl
            · exact hih.2.2.2 kv2 hkv2

theorem rev_phase2 (nb : Dict) (fresh : Nat → String) :
    ∀ (Bt : Dict) (st : List RawEvent) (n : Nat),
    (dkeys Bt).Nodup →
    (∀ kv ∈ Bt, dlookup kv.1 nb = none →
      ∃ rb, lastStore isAllc kv.1 st = some rb ∧ kv.2.originalID = some rb.id) →
    (st.map RawEvent.id).Nodup →
    ((st.filter isAllc).map canonOf).Nodup →
    (((applyActions fresh st n (revDeld nb Bt)).1.map RawEvent.id).Nodup)
    ∧ ((((applyActions fresh st n (revDeld nb Bt)).1.filter isAllc).map canonOf).Nodup)
    ∧ (∀ k, (k ∉ dkeys Bt ∨ dlookup k nb ≠ none) →
        lastStore isAllc k (applyActions fresh st n (revDeld nb Bt)).1
          = lastStore isAllc k st)
    ∧ (∀ kv ∈ Bt, dlookup kv.1 nb = none →
        hasFogSub (kv.2.description.getD "") = false →
        lastStore isAllc kv.1 (applyActions fresh st n (revDeld nb Bt)).1
          = lastStore isAllc kv.1 st)
    ∧ (∀ kv ∈ Bt, dlookup kv.1 nb = none →
        hasFogSub (kv.2.description.getD "") = true →
        lastStore isAllc kv.1 (applyActions fresh st n (revDeld nb Bt)).1 = none) := by
  intro Bt
  induction Bt with
  | nil =>
      intro st n _ _ hids hcan
      refine ⟨hids, hcan, fun k _ => ?_, fun kv hkv => absurd hkv (by simp),
        fun kv hkv => absurd hkv (by simp)⟩
      rw [revDeld]
      simp only [List.flatMap_nil]
      rfl
  | cons kv Bt' ih =>
      intro st n hknd hsync hids hcan
      have hkhd : kv.1 ∉ dkeys Bt' := by
        simp only [dkeys, List.map_cons, List.nodup_cons] at hknd
        exact hknd.1
      have hknd' : (dkeys Bt').Nodup := by
        simp only [dkeys, List.map_cons, List.nodup_cons] at hknd
        exact hknd.2
      have hdel : revDeld nb (kv :: Bt')
          = (if dlookup kv.1 nb = none && hasFogSub (kv.2.description.getD "")
             then [Action.delete kv.2.originalID] else [])
            ++ revDeld nb Bt' := rfl
      by_cases hd : dlookup kv.1 nb = none
      · by_cases hf : hasFogSub (kv.2.description.getD "") = true
        · -- actual delete
          have hcond : (decide (dlookup kv.1 nb = none)
              && hasFogSub (kv.2.description.getD "")) = true := by
            simp [hd, hf]
          obtain ⟨rb, hls, horig⟩ := hsync kv (List.mem_cons_self _ _) hd
          have hrbfacts := lastStore_mem _ _ _ _ hls
          have hrbmem : rb ∈ st := hrbfacts.1
          have hrbcan : canonOf rb = kv.1 := hrbfacts.2.2
          obtain ⟨u, v, hsplit⟩ := List.append_of_mem hrbmem
          have hufront : ∀ x ∈ u, x.id ≠ rb.id := by
            rw [hsplit] at hids
            exact ids_front u v rb hids
          have hstep : applyActions fresh st n (revDeld nb (kv :: Bt'))
              = applyActions fresh (u ++ v) n (revDeld nb Bt') := by
            rw [hdel, if_pos hcond, List.cons_append, List.nil_append,
              applyActions_cons, horig]
            show applyActions fresh (deleteList rb.id st) n (revDeld nb Bt') = _
            rw [hsplit, deleteList_split u v rb hufront]
          have hsub : List.Sublist (u ++ v) (u ++ rb :: v) :=
            List.Sublist.append_left (List.sublist_cons_self rb v) u
          have hids1 : ((u ++ v).map RawEvent.id).Nodup := by
            rw [hsplit] at hids
            exact hids.sublist (hsub.map RawEvent.id)
          have hcan1 : (((u ++ v).filter isAllc).map canonOf).Nodup := by
            rw [hsplit] at hcan
            exact hcan.sublist ((hsub.filter isAllc).map canonOf)
          have hcansplit := canon_nodup_split isAllc u v rb
            (by rw [← hsplit]; exact hcan) rfl
          have hlastnone : lastStore isAllc kv.1 (u ++ v) = none := by
            rw [lastStore_append]
            have hv : lastStore isAllc kv.1 v = none := by
              rw [lastStore_none_iff]
              intro r hr hcr
              exact (hrbcan ▸ hcansplit.2) r hr hcr
            have hu : lastStore isAllc kv.1 u = none := by
              rw [lastStore_none_iff]
              intro r hr hcr
              exact (hrbcan ▸ hcansplit.1) r hr hcr
            rw [hv, hu]
          have hlastother : ∀ k, k ≠ kv.1 →
              lastStore isAllc k (u ++ v) = lastStore isAllc k st := by
            intro k hk
            rw [← lastStore_middle_other isAllc k u v rb (by
                rintro ⟨_, hc2⟩
                exact hk (hrbcan ▸ hc2 ▸ rfl)), ← hsplit]
          have hsync' : ∀ kv2 ∈ Bt', dlookup kv2.1 nb = none →
              ∃ rb2, lastStore isAllc kv2.1 (u ++ v) = some rb2
                ∧ kv2.2.originalID = some rb2.id := by
            intro kv2 hkv2 hd2
            have hne : kv2.1 ≠ kv.1 := by
              intro he
              exact hkhd (he ▸ List.mem_map_of_mem Prod.fst hkv2)
            obtain ⟨rb2, hls2, ho2⟩ := hsync kv2 (List.mem_cons_of_mem _ hkv2) hd2
            exact ⟨rb2, by rw [hlastother kv2.1 hne]; exact hls2, ho2⟩
          rw [hstep]
          have hih := ih (u ++ v) n hknd' hsync' hids1 hcan1
          have hothers : ∀ kv2 ∈ Bt', kv2.1 ≠ kv.1 := by
            intro kv2 hkv2 he
            exact hkhd (he ▸ List.mem_map_of_mem Prod.fst hkv2)
          refine ⟨hih.1, hih.2.1, ?_, ?_, ?_⟩
          · intro k hk
            have hkne : k ≠ kv.1 := by
              intro he
              rcases hk with hk | hk
              · exact hk (by
                  simp only [dkeys, List.map_cons, List.mem_cons]
                  exact Or.inl he)
              · exact hk (he ▸ hd)
            have hk' : k ∉ dkeys Bt' ∨ dlookup k nb ≠ none := by
              rcases hk with hk | hk
              · exact Or.inl (fun hc => hk (by
                  simp only [dkeys, List.map_cons, List.mem_cons]
                  exact Or.inr hc))
              · exact Or.inr hk
            rw [hih.2.2.1 k hk', hlastother k hkne]
          · intro kv2 hkv2 hd2 hf2
            rcases List.mem_cons.mp hkv2 with rfl | hkv2
            · rw [hf2] at hf
              cases hf
            · rw [hih.2.2.2.1 kv2 hkv2 hd2 hf2,
                hlastother kv2.1 (hothers kv2 hkv2)]
          · intro kv2 hkv2 hd2 hf2
            rcases List.mem_cons.mp hkv2 with rfl | hkv2
            · rw [hih.2.2.1 kv2.1 (Or.inl hkhd), hlastnone]
            · exact hih.2.2.2.2 kv2 hkv2 hd2 hf2
        · -- tagged check fails: no action
          have hcond : (decide (dlookup kv.1 nb = none)
              && hasFogSub (kv.2.description.getD "")) = false := by
            simp only [Bool.not_eq_true] at hf
            simp [hf]
          have hstep : applyActions fresh st n (revDeld nb (kv :: Bt'))
              = applyActions fresh st n (revDeld nb Bt') := by
            rw [hdel, if_neg (by rw [hcond]; exact Bool.false_ne_true), List.nil_append]
          rw [hstep]
          have hih := ih st n hknd'
            (fun kv2 hkv2 hd2 => hsync kv2 (List.mem_cons_of_mem _ hkv2) hd2)
            hids hcan
          refine ⟨hih.1, hih.2.1, ?_, ?_, ?_⟩
          · intro k hk
            have hk' : k ∉ dkeys Bt' ∨ dlookup k nb ≠ none := by
              rcases hk with hk | hk
              · exact Or.inl (fun hc => hk (by
                  simp only [dkeys, List.map_cons, List.mem_cons]
                  exact Or.inr hc))
              · exact Or.inr hk
            exact hih.2.2.1 k hk'
          · intro kv2 hkv2 hd2 hf2
            rcases List.mem_cons.mp hkv2 with rfl | hkv2
            · exact hih.2.2.1 kv2.1 (Or.inl hkhd)
            · exact hih.2.2.2.1 kv2 hkv2 hd2 hf2
          · intro kv2 hkv2 hd2 hf2
            rcases List.mem_cons.mp hkv2 with rfl | hkv2
            · rw [hf2] at hf
              exact absurd rfl hf
            · exact hih.2.2.2.2 kv2 hkv2 hd2 hf2
      · -- key present in desired: no action
        have hcond : (decide (dlookup kv.1 nb = none)
            && hasFogSub (kv.2.description.getD "")) = false := by
          simp [hd]
        have hstep : applyActions fresh st n (revDeld nb (kv :: Bt'))
            = applyActions fresh st n (revDeld nb Bt') := by
          rw [hdel, if_neg (by rw [hcond]; exact Bool.false_ne_true), List.nil_append]
        rw [hstep]
        have hih := ih st n hknd'
          (fun kv2 hkv2 hd2 => hsync kv2 (List.mem_cons_of_mem _ hkv2) hd2)
          hids hcan
        refine ⟨hih.1, hih.2.1, ?_, ?_, ?_⟩
        · intro k hk
          have hk' : k ∉ dkeys Bt' ∨ dlookup k nb ≠ none := by
            rcases hk with hk | hk
            · exact Or.inl (fun hc => hk (by
                simp only [dkeys, List.map_cons, List.mem_cons]
                exact Or.inr hc))
            · exact Or.inr hk
          exact hih.2.2.1 k hk'
        · intro kv2 hkv2 hd2 hf2
          rcases List.mem_cons.mp hkv2 with rfl | hkv2
          · exact absurd hd2 hd
          · exact hih.2.2.2.1 kv2 hkv2 hd2 hf2
        · intro kv2 hkv2 hd2 hf2
          rcases List.mem_cons.mp hkv2 with rfl | hkv2
          · exact absurd hd2 hd
          · exact hih.2.2.2.2 kv2 hkv2 hd2 hf2

theorem filter_isAllc (l : List RawEvent) : l.filter isAllc = l := by
  simp [isAllc]

theorem dkeys_reverse_desired (src : List RawEvent) :
    dkeys (reverse_desired src) = dkeys (get_not_blocker src) := by
  rw [dkeys, dkeys, reverse_desired, List.map_map]
  rfl

theorem rev_idem (src tgt : List RawEvent) (fresh : Nat → String) (n0 : Nat)
    (hsrc : ∀ r ∈ src, validTS (readTS r.start) = true
      ∧ validTS (readTS r.end_) = true ∧ noNl r.id = true ∧ r.summary ≠ "")
    (htid : (tgt.map RawEvent.id).Nodup)
    (htcan : (tgt.map canonOf).Nodup)
    (hf1 : ∀ i, n0 ≤ i → i < n0 + (reverse_desired src).length →
      fresh i ∉ tgt.map RawEvent.id)
    (hf2 : ∀ i j, n0 ≤ i → i < j → j < n0 + (reverse_desired src).length →
      fresh i ≠ fresh j) :
    sync_reverse src (applyActions fresh tgt n0 (sync_reverse src tgt)).1 = [] := by
  have hwf := reverse_desired_wf src hsrc
  have hknd : (dkeys (reverse_desired src)).Nodup := by
    rw [dkeys_reverse_desired]
    exact nodup_dkeys_get_not_blocker src
  have htcan2 : ((tgt.filter isAllc).map canonOf).Nodup := by
    rw [filter_isAllc]
    exact htcan
  have hact : ∀ kv ∈ reverse_desired src,
      storeSync isAllc true (get_calendar_events tgt true) tgt kv.1 := by
    intro kv _
    rw [storeSync, dlookup_oa]
    cases hls : lastStore isAllc kv.1 tgt with
    | some rb => exact ⟨rb, rfl, rfl⟩
    | none => rfl
  have hp1 := rev_phase1 (get_calendar_events tgt true) fresh (reverse_desired src)
    tgt n0 hwf hknd hact htid htcan2 hf1 hf2
  have happ : applyActions fresh tgt n0 (sync_reverse src tgt)
      = applyActions fresh
          (applyActions fresh tgt n0
            (revCUd (reverse_desired src) (get_calendar_events tgt true))).1
          (applyActions fresh tgt n0
            (revCUd (reverse_desired src) (get_calendar_events tgt true))).2
          (revDeld (reverse_desired src) (get_calendar_events tgt true)) := by
    rw [sync_reverse_eq, revCU_eq, revDel_eq, applyActions_append]
  have hBnd : (dkeys (get_calendar_events tgt true)).Nodup := by
    rw [gce_true_eq2]
    exact nodup_dkeys_collectD _ _ _
  have hsync2 : ∀ kv ∈ get_calendar_events tgt true,
      dlookup kv.1 (reverse_desired src) = none →
      ∃ rb, lastStore isAllc kv.1
          (applyActions fresh tgt n0
            (revCUd (reverse_desired src) (get_calendar_events tgt true))).1 = some rb
        ∧ kv.2.originalID = some rb.id := by
    intro kv hkv hd
    have hdlB : dlookup kv.1 (get_calendar_events tgt true) = some kv.2 :=
      dlookup_of_mem_nodup kv _ hBnd hkv
    rw [dlookup_oa] at hdlB
    cases hls : lastStore isAllc kv.1 tgt with
    | none => rw [hls] at hdlB; simp at hdlB
    | some rb =>
        rw [hls] at hdlB
        simp only [Option.map_some'] at hdlB
        have hval : create_calender_event_object rb true = kv.2 := by
          injection hdlB
        have hknotD : kv.1 ∉ dkeys (reverse_desired src) :=
          (dlookup_none_iff _ _).mp hd
        refine ⟨rb, ?_, ?_⟩
        · rw [hp1.2.2.1 kv.1 hknotD, hls]
        · rw [← hval, create_originalID]
  have hp2 := rev_phase2 (reverse_desired src) fresh (get_calendar_events tgt true)
    (applyActions fresh tgt n0
      (revCUd (reverse_desired src) (get_calendar_events tgt true))).1
    (applyActions fresh tgt n0
      (revCUd (reverse_desired src) (get_calendar_events tgt true))).2
    hBnd hsync2 hp1.1 hp1.2.1
  rw [happ]
  rw [sync_reverse_eq, revCU_eq, revDel_eq]
  rw [List.append_eq_nil]
  constructor
  · refine flatMap_nil_of _ _ ?_
    intro kv hkv
    have hDne : dlookup kv.1 (reverse_desired src) ≠ none :=
      dlookup_ne_none_of_mem kv _ hkv
    obtain ⟨o2, hdl2, heq2⟩ := hp1.2.2.2 kv hkv
    have hpres := hp2.2.2.1 kv.1 (Or.inr hDne)
    have hdl3 : dlookup kv.1 (get_calendar_events
        (applyActions fresh
          (applyActions fresh tgt n0
            (revCUd (reverse_desired src) (get_calendar_events tgt true))).1
          (applyActions fresh tgt n0
            (revCUd (reverse_desired src) (get_calendar_events tgt true))).2
          (revDeld (reverse_desired src) (get_calendar_events tgt true))).1 true)
        = some o2 := by
      rw [dlookup_oa, hpres, ← dlookup_oa, hdl2]
    rw [hdl3]
    show (if CalendarEvent.eq kv.2 o2 then ([] : List Action)
      else [update_blocker kv.2 o2]) = []
    rw [if_pos heq2]
  · refine flatMap_nil_of _ _ ?_
    intro kv hkv
    by_cases hd : dlookup kv.1 (reverse_desired src) = none
    · have hoa2nd : (dkeys (get_calendar_events
          (applyActions fresh
            (applyActions fresh tgt n0
              (revCUd (reverse_desired src) (get_calendar_events tgt true))).1
            (applyActions fresh tgt n0
              (revCUd (reverse_desired src) (get_calendar_events tgt true))).2
            (revDeld (reverse_desired src) (get_calendar_events tgt true))).1 true)).Nodup := by
        rw [gce_true_eq2]
        exact nodup_dkeys_collectD _ _ _
      have hself : dlookup kv.1 (get_calendar_events
          (applyActions fresh
            (applyActions fresh tgt n0
              (revCUd (reverse_desired src) (get_calendar_events tgt true))).1
            (applyActions fresh tgt n0
              (revCUd (reverse_desired src) (get_calendar_events tgt true))).2
            (revDeld (reverse_desired src) (get_calendar_events tgt true))).1 true)
          = some kv.2 :=
        dlookup_of_mem_nodup kv _ hoa2nd hkv
      rw [dlookup_oa] at hself
      have hknotD : kv.1 ∉ dkeys (reverse_desired src) :=
        (dlookup_none_iff _ _).mp hd
      have hfogfalse : hasFogSub (kv.2.description.getD "") = false := by
        by_cases hB : dlookup kv.1 (get_calendar_events tgt true) = none
        · exfalso
          have hls0 : lastStore isAllc kv.1 tgt = none := by
            rw [dlookup_oa] at hB
            cases hls : lastStore isAllc kv.1 tgt with
            | none => rfl
            | some rb => rw [hls] at hB; simp at hB
          have hknotB : kv.1 ∉ dkeys (get_calendar_events tgt true) :=
            (dlookup_none_iff _ _).mp hB
          have h1 := hp1.2.2.1 kv.1 hknotD
          have h2 := hp2.2.2.1 kv.1 (Or.inl hknotB)
          rw [h2, h1, hls0] at hself
          simp at hself
        · cases hBs : dlookup kv.1 (get_calendar_events tgt true) with
          | none => exact absurd hBs hB
          | some bB =>
              have hBmem : (kv.1, bB) ∈ get_calendar_events tgt true :=
                dlookup_mem _ _ _ hBs
              by_cases hfB : hasFogSub (bB.description.getD "") = true
              · exfalso
                have := hp2.2.2.2.2 (kv.1, bB) hBmem hd hfB
                rw [this] at hself
                simp at hself
              · simp only [Bool.not_eq_true] at hfB
                have hpres2 := hp2.2.2.2.1 (kv.1, bB) hBmem hd hfB
                have hpres1 := hp1.2.2.1 kv.1 hknotD
                rw [hpres2, hpres1] at hself
                rw [dlookup_oa] at hBs
                rw [hBs] at hself
                have : bB = kv.2 := by injection hself
                rw [← this]
                exact hfB
      have hcond : (decide (dlookup kv.1 (reverse_desired src) = none)
          && hasFogSub (kv.2.description.getD "")) = false := by
        simp [hfogfalse]
      rw [if_neg (by rw [hcond]; exact Bool.false_ne_true)]
    · have hcond : (decide (dlookup kv.1 (reverse_desired src) = none)
          && hasFogSub (kv.2.description.getD "")) = false := by
        simp [hd]
      rw [if_neg (by rw [hcond]; exact Bool.false_ne_true)]

/-! ### Claim C5 -/

def c5Src : List RawEvent :=
  [{ id := "X",
     summary := "",
     description := some "",
     start := ⟨some "2025-01-01", none⟩,
     end_ := ⟨some "2025-01-02", none⟩ }]

def c5Tgt : List RawEvent :=
  [{ id := "M",
     summary := "A",
     description := some "\nfogTimeID: X",
     start := ⟨some "2025-01-01", none⟩,
     end_ := ⟨some "2025-01-02", none⟩ }]

/-- Claim C5, counterexample: a reverse pass whose desired record has an
empty (falsy) summary.  `update_blocker` omits the summary key from the
patch body, so applying the first run's action set leaves the mirror's
summary untouched, and the second reconciliation against the
re-collected store emits the same non-empty action set again. -/
theorem c5_idempotence_counterexample :
    sync_reverse c5Src
        (applyActions (fun _ => "new0") c5Tgt 0 (sync_reverse c5Src c5Tgt)).1
      = sync_reverse c5Src c5Tgt
    ∧ sync_reverse c5Src
        (applyActions (fun _ => "new0") c5Tgt 0 (sync_reverse c5Src c5Tgt)).1
      ≠ [] := by decide

/-- Claim C5, amended: idempotence of a sync pass under the hypotheses
the code actually needs.  Forward: for every desired map `D` that is a
well-formed `keep_infos=False` collection (entries keyed by their own
canonical id, no payload fields, valid exclusive timestamps,
newline-free ids, distinct keys) and every target store with distinct
provider ids, distinct blocker canonical ids, and genuinely fresh
store-assigned ids, applying the first pass's action set and
reconciling `D` against the re-collected store yields no actions.
Reverse: the same, provided additionally every source record carries a
non-empty summary (the counterexample shows an empty summary breaks
convergence) and the reverse-target store has distinct canonical
ids. -/
theorem c5_sync_idempotent :
    (∀ (D : Dict) (st : List RawEvent) (fresh : Nat → String) (n0 : Nat),
      (∀ kv ∈ D, fwdWF kv) →
      (dkeys D).Nodup →
      (st.map RawEvent.id).Nodup →
      ((st.filter isFTBc).map canonOf).Nodup →
      (∀ i, n0 ≤ i → i < n0 + D.length → fresh i ∉ st.map RawEvent.id) →
      (∀ i j, n0 ≤ i → i < j → j < n0 + D.length → fresh i ≠ fresh j) →
      sync_blockers D (get_blockers
        (applyActions fresh st n0 (sync_blockers D (get_blockers st))).1) = [])
    ∧ (∀ (src tgt : List RawEvent) (fresh : Nat → String) (n0 : Nat),
      (∀ r ∈ src, validTS (readTS r.start) = true
        ∧ validTS (readTS r.end_) = true ∧ noNl r.id = true ∧ r.summary ≠ "") →
      (tgt.map RawEvent.id).Nodup →
      (tgt.map canonOf).Nodup →
      (∀ i, n0 ≤ i → i < n0 + (reverse_desired src).length →
        fresh i ∉ tgt.map RawEvent.id) →
      (∀ i j, n0 ≤ i → i < j → j < n0 + (reverse_desired src).length →
        fresh i ≠ fresh j) →
      sync_reverse src (applyActions fresh tgt n0 (sync_reverse src tgt)).1 = []) :=
  ⟨fun D st fresh n0 h1 h2 h3 h4 h5 h6 => fwd_idem D st fresh n0 h1 h2 h3 h4 h5 h6,
   fun src tgt fresh n0 h1 h2 h3 h4 h5 => rev_idem src tgt fresh n0 h1 h2 h3 h4 h5⟩

instance fwdWF_decidable (kv : String × CalendarEvent) : Decidable (fwdWF kv) := by
  unfold fwdWF
  infer_instance

theorem c5_sync_idempotent_witness :
    (dkeys (collect_my_events [[demoSrc]])).Nodup
    ∧ sync_blockers (collect_my_events [[demoSrc]])
        (get_blockers (Prod.fst (applyActions (fun _ => "new0") [] 0
          (sync_blockers (collect_my_events [[demoSrc]]) (get_blockers []))))) = [] :=
  ⟨by decide,
   c5_sync_idempotent.1 (collect_my_events [[demoSrc]]) [] (fun _ => "new0") 0
     (by decide) (by decide) (by decide) (by decide)
     (fun i h1 h2 => by simp)
     (fun i j h1 h2 h3 => by
        have hlen : (collect_my_events [[demoSrc]]).length = 1 := by decide
        rw [hlen] at h3
        exact absurd h2 (by omega))⟩
